import Mathlib

/-!
# zavala: the Destiny 2 API client and the scheduled jobs

A shallow embedding of `destiny2/client.go`, `destiny2/errors.go`, `destiny2/group.go`,
`destiny2/user.go`, `app/jobs.go` and the guild deletion of `app/repo.go`, followed by
theorems about the embedded functions.

Conventions of the embedding.

* Go's `error` is `Option GoError` (`none` is `nil`).
* A function that writes through a pointer `dst` takes the old value and returns the new one.
* The network is a `World`: a deterministic responder together with the list of requests
  dispatched so far.
* Functions of the Go standard library and of third-party packages are either modelled
  directly from their documentation (`path.Join`, `url.Values`, `http.Header`,
  `strconv.ParseUint`, `errors.Is`, `time.NewTicker`, the `select` statement, the statement
  squirrel builds) or, for the byte-level decoders, passed in a `Runtime`.
* A `*Client` is an index into a `Heap`; the functions that only read a client take the
  struct the pointer refers to.
-/

set_option autoImplicit false

namespace destiny2

/-! ## errors.go -/

/-- SimpleError is returned for errors that have no metadata (`type SimpleError string`). -/
structure SimpleError where
  text : String
deriving DecidableEq, Repr

/-- The method `SimpleError.Error`. -/
def SimpleError.Error (e : SimpleError) : String := "destiny2: " ++ e.text

/-- ErrWebAuthRequired is returned when an endpoint is hit that requires auth credentials. -/
def ErrWebAuthRequired : SimpleError := ⟨"WebAuthRequired"⟩

/-- ErrUnautorized is returned when invalid/expired credentials are used. -/
def ErrUnautorized : SimpleError := ⟨"Unauthorized"⟩

/-- ErrUnknown is returned when the body of a response is not JSON and the status code is
not handled. -/
def ErrUnknown : SimpleError := ⟨"Unknown"⟩

/-- ErrNotFound is returned when a requested resource could not be found. -/
def ErrNotFound : SimpleError := ⟨"NotFound"⟩

/-- Go error values, as far as the program tells them apart. -/
inductive GoError where
  /-- a `destiny2.SimpleError` -/
  | simple (e : SimpleError)
  /-- the sentinel `context.Canceled` -/
  | canceled
  /-- the sentinel `sql.ErrNoRows` -/
  | noRows
  /-- any other leaf error (transport, mime, json, storage, ...) with its message -/
  | other (msg : String)
  /-- an error wrapping another one (`Unwrap` returns `inner`), with its full message -/
  | wrap (msg : String) (inner : GoError)
deriving DecidableEq, Repr

/-- The method `Error` of an error value. -/
def GoError.Error : GoError → String
  | .simple e => e.Error
  | .canceled => "context canceled"
  | .noRows => "sql: no rows in result set"
  | .other msg => msg
  | .wrap msg _ => msg

/-- Go's `errors.Is(err, target)` for a sentinel target: `err` is the target or wraps it. -/
def GoError.Is (err target : GoError) : Bool :=
  if err = target then true
  else match err with
    | .wrap _ inner => GoError.Is inner target
    | _ => false

/-! ## Standard library: `path` -/

/-- The pieces of a path between its slashes. -/
def splitSlash : List Char → List (List Char)
  | [] => [[]]
  | c :: cs =>
    if c = '/' then [] :: splitSlash cs
    else match splitSlash cs with
      | [] => [[c]]
      | seg :: rest => (c :: seg) :: rest

/-- One step of `path.Clean` over the elements kept so far: empty and `.` elements are
dropped, `..` removes the element before it (at the root it is dropped, and in a relative
path a leading `..` is kept). -/
def cleanStep (rooted : Bool) (out : List (List Char)) (seg : List Char) : List (List Char) :=
  if seg = [] ∨ seg = ['.'] then out
  else if seg = ['.', '.'] then
    match out.getLast? with
    | none => if rooted then out else out ++ [seg]
    | some top => if top = ['.', '.'] then out ++ [seg] else out.dropLast
  else out ++ [seg]

/-- Go's `path.Clean`. -/
def pathClean (p : String) : String :=
  if p.data = [] then "."
  else
    let rooted := p.data.head? = some '/'
    let out := (splitSlash p.data).foldl (cleanStep rooted) []
    let body := String.mk (List.intercalate ['/'] out)
    if rooted then "/" ++ body
    else if out = [] then "." else body

/-- Go's `path.Join`: the non-empty elements joined by slashes, then cleaned; the empty
string when every element is empty. -/
def pathJoin (elems : List String) : String :=
  match elems.filter (fun e => e ≠ "") with
  | [] => ""
  | es => pathClean (String.intercalate "/" es)

/-! ## Standard library: `net/url` and `net/http` -/

/-- Go's `url.Values` (`map[string][]string`), as an association list with one entry per
key. -/
abbrev Values := List (String × List String)

/-- The map lookup `v[key]` (`nil` for an absent key). -/
def Values.get : Values → String → List String
  | [], _ => []
  | (k, vs) :: rest, key => if k = key then vs else Values.get rest key

/-- Go's `Values.Add`: appends `value` to the values of `key`. -/
def Values.Add : Values → String → String → Values
  | [], key, value => [(key, [value])]
  | (k, vs) :: rest, key, value =>
    if k = key then (k, vs ++ [value]) :: rest else (k, vs) :: Values.Add rest key value

/-- Insertion of a key into an ascending list of keys. -/
def insertKey (key : String) : List String → List String
  | [] => [key]
  | k :: ks => if key.data < k.data then key :: k :: ks else k :: insertKey key ks

/-- The keys of the map in ascending order, each once (`Values.Encode` sorts the keys). -/
def Values.sortedKeys : Values → List String
  | [] => []
  | (k, _) :: rest =>
    let ks := Values.sortedKeys rest
    if k ∈ ks then ks else insertKey k ks

/-- A query string, as the sequence of its `key=value` pairs between the `&` separators
(keys and values unescaped). -/
abbrev RawQuery := List (String × String)

/-- Go's `Values.Encode`: sorted by key, the values of one key in their order. -/
def Values.Encode (v : Values) : RawQuery :=
  v.sortedKeys.flatMap (fun k => (v.get k).map (fun x => (k, x)))

/-- Go's `url.ParseQuery`, as used by `URL.Query`: every pair is added in order. -/
def ParseQuery (raw : RawQuery) : Values :=
  raw.foldl (fun v kv => v.Add kv.1 kv.2) []

/-- The values a query string carries for a key, in their order. -/
def RawQuery.values (raw : RawQuery) (key : String) : List String :=
  (raw.filter (fun kv => kv.1 = key)).map (fun kv => kv.2)

/-- Go's `url.URL`, the parts the client uses. -/
structure URL where
  Scheme : String
  Host : String
  Path : String
  RawQuery : RawQuery
deriving DecidableEq, Repr

/-- Go's `URL.Query`. -/
def URL.Query (u : URL) : Values := ParseQuery u.RawQuery

/-- Go's `http.Header`, as the sequence of its (canonical key, value) lines. -/
abbrev Header := List (String × String)

/-- Go's `Header.Add`. -/
def Header.Add (h : Header) (key value : String) : Header := h ++ [(key, value)]

/-- Go's `Header.Values`: all values of the key. -/
def Header.Values (h : Header) (key : String) : List String :=
  (h.filter (fun kv => kv.1 = key)).map (fun kv => kv.2)

/-- Go's `Header.Get`: the first value of the key, or the empty string. -/
def Header.Get (h : Header) (key : String) : String :=
  ((Header.Values h key).head?).getD ""

/-- Go's `Header.Set`: replaces the values of the key by the single value. -/
def Header.Set (h : Header) (key value : String) : Header :=
  h.filter (fun kv => kv.1 ≠ key) ++ [(key, value)]

/-- Go's `context.Context`, identified by a name. -/
structure Context where
  name : String
deriving DecidableEq, Repr

/-- Go's `context.Background()`. -/
def Context.Background : Context := ⟨"background"⟩

/-- Go's `oauth2.Token` (the expiry as a Unix time). -/
structure Token where
  AccessToken : String
  TokenType : String
  RefreshToken : String
  Expiry : Int
deriving DecidableEq, Repr

/-- The simple case folding of `strings.EqualFold`, on the characters that fold to an ASCII
letter of `bearer`, `mac` or `basic`. -/
def foldChar (c : Char) : Char :=
  if c = Char.ofNat 0x17F then 's' else c.toLower

/-- Go's `strings.EqualFold(s, t)` for an ASCII lower-case `t`. -/
def EqualFold (s t : String) : Bool :=
  s.data.map foldChar = t.data

/-- Go's `Token.Type`. -/
def Token.Type (t : Token) : String :=
  if EqualFold t.TokenType "bearer" then "Bearer"
  else if EqualFold t.TokenType "mac" then "MAC"
  else if EqualFold t.TokenType "basic" then "Basic"
  else if t.TokenType ≠ "" then t.TokenType
  else "Bearer"

/-- Go's `http.Request`, the parts the client uses. -/
structure Request where
  Method : String
  URL : URL
  Header : Header
  Body : Option String
  ctx : Context
deriving DecidableEq, Repr

/-- Go's `Token.SetAuthHeader`. -/
def Token.SetAuthHeader (t : Token) (r : Request) : Request :=
  { r with Header := Header.Set r.Header "Authorization" (t.Type ++ " " ++ t.AccessToken) }

/-- Go's `http.Response`, the parts the client uses. -/
structure Response where
  StatusCode : Int
  Header : Header
  Body : String
deriving DecidableEq, Repr

/-- Go's `oauth2.Config`, the parts the client sets. -/
structure OAuth2Config where
  ClientID : String
  ClientSecret : String
  AuthURL : String
  TokenURL : String
deriving DecidableEq, Repr

/-- Go's `*http.Client`: the default client, or one made by `oauth2.Config.Client` that
authorizes its requests with a token. -/
inductive HTTPClient where
  | DefaultClient
  | authorized (conf : Option OAuth2Config) (t : Token)
deriving DecidableEq, Repr

/-- The network: what the transport answers to a request, given the client that sends it
and everything dispatched before, and the requests dispatched so far. -/
structure World where
  respond : List (HTTPClient × Request) → HTTPClient → Request → Except GoError Response
  sent : List (HTTPClient × Request)

/-- Go's `http.Client.Do`. -/
def HTTPClient.Do (cl : HTTPClient) (req : Request) (w : World) :
    Except GoError Response × World :=
  (w.respond w.sent cl req, { w with sent := w.sent ++ [(cl, req)] })

/-- The characters of an HTTP token, as `net/http` accepts them in a method. -/
def isTokenChar (c : Char) : Bool :=
  c.isAlphanum || c ∈ ['!', '#', '$', '%', '&', Char.ofNat 39, '*', '+', '-', '.', '^', '_',
    Char.ofNat 96, '|', '~']

/-- Go's `http.NewRequest(method, url, nil)` for a URL that parses: the empty method means
GET, and a method that is not a token is refused. -/
def NewRequest (method : String) (u : URL) : Except GoError Request :=
  let method := if method = "" then "GET" else method
  if method.data.all isTokenChar then
    .ok { Method := method, URL := u, Header := [], Body := none, ctx := Context.Background }
  else .error (.other ("net/http: invalid method " ++ method))

/-- Go's `http.StatusUnauthorized`. -/
def StatusUnauthorized : Int := 401

/-- Go's `http.StatusNotFound`. -/
def StatusNotFound : Int := 404

/-! ## client.go: options and types -/

/-- BaseURL is the base URL for the Bungie API, parsed. -/
def BaseURL : URL :=
  { Scheme := "https", Host := "www.bungie.net", Path := "/Platform", RawQuery := [] }

/-- RequestOption modifies the http request before it is dispatched. -/
abbrev RequestOption := Request → Request

/-- OptionBody adds a body to a request. -/
def OptionBody (r : String) : RequestOption :=
  fun req => { req with Body := some r }

/-- OptionContext adds a context to a request. -/
def OptionContext (ctx : Context) : RequestOption :=
  fun req => { req with ctx := ctx }

/-- OptionQuery adds a query param to a request; `value` is the rendering `fmt.Sprint` gives
of the Go value. -/
def OptionQuery (key : String) (value : String) : RequestOption :=
  fun req =>
    let q := req.URL.Query
    let q := q.Add key value
    { req with URL := { req.URL with RawQuery := q.Encode } }

/-- OptionOAuthToken sets the authorization header on the request to the provided token. -/
def OptionOAuthToken (t : Token) : RequestOption :=
  fun req => t.SetAuthHeader req

/-- APIResponse represents part of a response returned from every Bungie API endpoint. -/
structure APIResponse where
  ErrorCode : Int
  ThrottleSeconds : Int
  ErrorStatus : String
  Message : String
  MessageData : List (String × String)
  DetailedErrorTrace : String
deriving DecidableEq, Repr

/-- The intermediate struct `respStruct` of `Client.do`: the raw `Response` payload and the
embedded `APIResponse`. -/
structure Envelope extends APIResponse where
  Response : String
deriving DecidableEq, Repr

/-- PagedQuery of the Bungie API. -/
structure PagedQuery where
  ItemsPerPage : Int
  CurrentPage : Int
  RequestContinuationToken : String
deriving DecidableEq, Repr

/-- Client is used to communicate with the Destiny 2 API. The three service fields of the Go
struct are pointers back to a client and are kept in the service structures. -/
structure Client where
  httpClient : HTTPClient
  apiKey : String
  oauth2Config : Option OAuth2Config
deriving DecidableEq, Repr

/-! ## group.go and user.go: the payload types -/

/-- GroupUserInfoCard of the Bungie API. -/
structure GroupUserInfoCard where
  LastSeenDisplayName : String
  LastSeenDisplayNameType : Int
  SupplementalDisplayName : String
  IconPath : String
  CrossSaveOverride : Int
  ApplicableMembershipTypes : List Int
  IsPublic : Bool
  MembershipType : Int
  MembershipID : Int
  DisplayName : String
deriving DecidableEq, Repr

/-- GroupMember of the Bungie API (the join date as a Unix time). -/
structure GroupMember where
  MemberType : Int
  IsOnline : Bool
  LastOnlineStatusChange : Int
  GroupID : Int
  DestinyUserInfo : GroupUserInfoCard
  JoinDate : Int
deriving DecidableEq, Repr

/-- SearchResultOfGroupMember of the Bungie API. -/
structure SearchResultOfGroupMember where
  Results : List GroupMember
  TotalResults : Int
  HasMore : Bool
  Query : PagedQuery
  ReplacementContinuationToken : String
deriving DecidableEq, Repr

/-- The zero value `SearchResultOfGroupMember{}`. -/
def SearchResultOfGroupMember.zero : SearchResultOfGroupMember :=
  { Results := [], TotalResults := 0, HasMore := false,
    Query := { ItemsPerPage := 0, CurrentPage := 0, RequestContinuationToken := "" },
    ReplacementContinuationToken := "" }

/-- GeneralUser of the Bungie API, the fields that identify the user. -/
structure GeneralUser where
  MembershipID : Int
  UniqueName : String
  DisplayName : String
deriving DecidableEq, Repr

/-- UserMembershipData of the Bungie API. -/
structure UserMembershipData where
  DestinyMemberships : List GroupUserInfoCard
  BungieNetUser : GeneralUser
deriving DecidableEq, Repr

/-- The zero value `UserMembershipData{}`. -/
def UserMembershipData.zero : UserMembershipData :=
  { DestinyMemberships := [],
    BungieNetUser := { MembershipID := 0, UniqueName := "", DisplayName := "" } }

/-- Go's `json.Unmarshal(data, dst)` for a destination of type `δ`: the destination after
the call and the error. -/
abbrev Unmarshal (δ : Type) := String → δ → δ × Option GoError

/-- The byte-level decoders of the standard library that the client calls. -/
structure Runtime where
  /-- `mime.ParseMediaType`, the media type it returns -/
  ParseMediaType : String → Except GoError String
  /-- `json.NewDecoder(body).Decode(&respStruct)` -/
  DecodeEnvelope : String → Except GoError Envelope
  /-- `json.Unmarshal` into a `*SearchResultOfGroupMember` -/
  UnmarshalSearchResult : Unmarshal SearchResultOfGroupMember
  /-- `json.Unmarshal` into a `*UserMembershipData` -/
  UnmarshalMembershipData : Unmarshal UserMembershipData

/-! ## client.go: `Client.do` -/

/-- The first part of `Client.do` (client.go 158-171): the request with the API key header
and the options applied in order. -/
def Client.doRequest (c : Client) (method endpoint : String) (opts : List RequestOption) :
    Except GoError Request :=
  let u := BaseURL
  let u := { u with Path := pathJoin [u.Path, endpoint] ++ "/" }
  match NewRequest method u with
  | .error err => .error err
  | .ok req =>
    let req := { req with Header := Header.Add req.Header "X-Api-Key" c.apiKey }
    .ok (opts.foldl (fun req opt => opt req) req)

/-- The last part of `Client.do` (client.go 180-222): the classification of a response. -/
def Client.doResponse {δ : Type} (rt : Runtime) (unmarshal : Unmarshal δ) (resp : Response)
    (dst : δ) : δ × Option GoError :=
  match rt.ParseMediaType (Header.Get resp.Header "Content-Type") with
  | .error err => (dst, some err)
  | .ok contentType =>
    if contentType ≠ "application/json" then
      if resp.StatusCode = StatusUnauthorized then (dst, some (.simple ErrUnautorized))
      else if resp.StatusCode = StatusNotFound then (dst, some (.simple ErrNotFound))
      else (dst, some (.simple ErrUnknown))
    else
      match rt.DecodeEnvelope resp.Body with
      | .error err => (dst, some err)
      | .ok respStruct =>
        if respStruct.ErrorCode ≠ 1 then
          if respStruct.ErrorCode = 21 then (dst, some (.simple ErrNotFound))
          else if respStruct.ErrorCode = 99 then (dst, some (.simple ErrWebAuthRequired))
          else (dst, some (.simple ErrUnknown))
        else unmarshal respStruct.Response dst

/-- The method `Client.do`: builds the request, sends it and classifies the response. -/
def Client.do {δ : Type} (rt : Runtime) (unmarshal : Unmarshal δ) (c : Client)
    (method endpoint : String) (dst : δ) (opts : List RequestOption) (w : World) :
    (δ × Option GoError) × World :=
  match c.doRequest method endpoint opts with
  | .error err => ((dst, some err), w)
  | .ok req =>
    match c.httpClient.Do req w with
    | (.error err, w) => ((dst, some err), w)
    | (.ok resp, w) => (Client.doResponse rt unmarshal resp dst, w)

/-! ## group.go -/

/-- GroupV2Service is an interface for interfacing with the groupv2 endpoints; `c` is the
client its pointer refers to. -/
structure GroupV2Service where
  c : Client
deriving DecidableEq, Repr

/-- The method `GroupV2Service.do`. -/
def GroupV2Service.do {δ : Type} (rt : Runtime) (unmarshal : Unmarshal δ) (gs : GroupV2Service)
    (method endpoint : String) (dst : δ) (opts : List RequestOption) (w : World) :
    (δ × Option GoError) × World :=
  let endpoint := pathJoin ["/GroupV2", endpoint]
  gs.c.do rt unmarshal method endpoint dst opts w

/-- GetMembersOfGroup gets a list of members in a given group. -/
def GroupV2Service.GetMembersOfGroup (rt : Runtime) (gs : GroupV2Service) (gid : Int)
    (opts : List RequestOption) (w : World) :
    (SearchResultOfGroupMember × Option GoError) × World :=
  let r := SearchResultOfGroupMember.zero
  let endpoint := "/" ++ toString gid ++ "/Members"
  gs.do rt rt.UnmarshalSearchResult "GET" endpoint r opts w

/-- The loop of `GetAllMembersOfGroup` from page `page` on, with the options and the members
accumulated so far. The Go loop has no bound; `fuel` bounds the number of pages requested
and `none` means the bound was reached. The returned slice is `none` for Go's `nil`. -/
def GroupV2Service.GetAllMembersOfGroup.loop (rt : Runtime) (gs : GroupV2Service) (gid : Int) :
    Nat → Nat → List RequestOption → List GroupMember → World →
    Option ((Option (List GroupMember) × Option GoError) × World)
  | 0, _, _, _, _ => none
  | fuel + 1, page, opts, members, w =>
    let opts := opts ++ [OptionQuery "currentPage" (toString page)]
    match gs.GetMembersOfGroup rt gid opts w with
    | ((_, some err), w) => some ((none, some err), w)
    | ((resp, none), w) =>
      let members := members ++ resp.Results
      if !resp.HasMore then some ((some members, none), w)
      else GroupV2Service.GetAllMembersOfGroup.loop rt gs gid fuel (page + 1) opts members w

/-- GetAllMembersOfGroup gets all the members of a given group and paginates through pages
if needed. -/
def GroupV2Service.GetAllMembersOfGroup (rt : Runtime) (gs : GroupV2Service) (fuel : Nat)
    (gid : Int) (opts : List RequestOption) (w : World) :
    Option ((Option (List GroupMember) × Option GoError) × World) :=
  GroupV2Service.GetAllMembersOfGroup.loop rt gs gid fuel 1 opts [] w

/-! ## user.go -/

/-- UserService holds the client its pointer refers to. -/
structure UserService where
  c : Client
deriving DecidableEq, Repr

/-- The method `UserService.do`. -/
def UserService.do {δ : Type} (rt : Runtime) (unmarshal : Unmarshal δ) (us : UserService)
    (method endpoint : String) (dst : δ) (opts : List RequestOption) (w : World) :
    (δ × Option GoError) × World :=
  let endpoint := pathJoin ["/User", endpoint]
  us.c.do rt unmarshal method endpoint dst opts w

/-- GetMembershipDataForCurrentUser returns a list of accounts associated with signed in
user. -/
def UserService.GetMembershipDataForCurrentUser (rt : Runtime) (us : UserService)
    (opts : List RequestOption) (w : World) : (UserMembershipData × Option GoError) × World :=
  let r := UserMembershipData.zero
  us.do rt rt.UnmarshalMembershipData "GET" "/GetMembershipsForCurrentUser" r opts w

/-! ## Vocabulary of the statements -/

/-- The page call that receives the transport outcome `o` succeeds with page `p`. -/
def ServesPage (rt : Runtime) (o : Except GoError Response) (p : SearchResultOfGroupMember) :
    Prop :=
  ∃ resp, o = .ok resp ∧
    Client.doResponse rt rt.UnmarshalSearchResult resp SearchResultOfGroupMember.zero = (p, none)

/-- The page call that receives the transport outcome `o` fails with error `e`. -/
def FailsPage (rt : Runtime) (o : Except GoError Response) (e : GoError) : Prop :=
  o = .error e ∨ ∃ resp r, o = .ok resp ∧
    Client.doResponse rt rt.UnmarshalSearchResult resp SearchResultOfGroupMember.zero
      = (r, some e)

/-! ## Concrete decoders and networks, for runs on concrete inputs -/

/-- A group member with the given display name. -/
def sampleMember (name : String) : GroupMember :=
  { MemberType := 0, IsOnline := false, LastOnlineStatusChange := 0, GroupID := 0,
    DestinyUserInfo :=
      { LastSeenDisplayName := "", LastSeenDisplayNameType := 0, SupplementalDisplayName := "",
        IconPath := "", CrossSaveOverride := 0, ApplicableMembershipTypes := [],
        IsPublic := false, MembershipType := 0, MembershipID := 0, DisplayName := name },
    JoinDate := 0 }

/-- A membership entry with the given membership type, cross-save override and name. -/
def sampleCard (membershipType crossSave : Int) (name : String) : GroupUserInfoCard :=
  { LastSeenDisplayName := "", LastSeenDisplayNameType := 0, SupplementalDisplayName := "",
    IconPath := "", CrossSaveOverride := crossSave, ApplicableMembershipTypes := [],
    IsPublic := false, MembershipType := membershipType, MembershipID := 0,
    DisplayName := name }

/-- An envelope with the given error code and payload. -/
def sampleEnvelope (code : Int) (payload : String) : Envelope :=
  { ErrorCode := code, ThrottleSeconds := 0, ErrorStatus := "", Message := "",
    MessageData := [], DetailedErrorTrace := "", Response := payload }

/-- Decoders for a toy wire format. A body `E` followed by digits is an envelope with that
error code; a body `R` followed by a payload is an envelope with error code 1 and that
payload. In a member payload every character is a member of that name and a final `+` sets
`hasMore`; in a membership payload an upper-case letter is the active entry (type 3,
override 3) and any other character an inactive one (type 1, override 0). A payload
containing `!` does not decode. -/
def sampleRuntime : Runtime where
  ParseMediaType := fun v =>
    if v = "" then .error (.other "mime: no media type") else .ok v
  DecodeEnvelope := fun body =>
    match body.data with
    | 'E' :: ds =>
      .ok (sampleEnvelope (ds.foldl (fun n c => n * 10 + ((c.toNat - '0'.toNat : Nat) : Int)) 0) "")
    | 'R' :: payload => .ok (sampleEnvelope 1 (String.mk payload))
    | _ => .error (.other "invalid character looking for beginning of value")
  UnmarshalSearchResult := fun data dst =>
    if '!' ∈ data.data then (dst, some (.other "json: cannot unmarshal"))
    else
      ({ dst with
          Results := (data.data.filter (fun c => c ≠ '+')).map (fun c => sampleMember c.toString),
          HasMore := data.data.getLast? = some '+' }, none)
  UnmarshalMembershipData := fun data dst =>
    if '!' ∈ data.data then (dst, some (.other "json: cannot unmarshal"))
    else
      ({ dst with
          DestinyMemberships := data.data.map (fun c =>
            if c.isUpper then sampleCard 3 3 c.toString else sampleCard 1 0 c.toString) },
        none)

/-- A response with the given status, content type and body. -/
def sampleResponse (status : Int) (contentType body : String) : Response :=
  { StatusCode := status, Header := [("Content-Type", contentType)], Body := body }

/-- The network that answers its k-th request with the k-th outcome of the list, whatever
the request, and refuses the connection afterwards. -/
def scripted (outcomes : List (Except GoError Response)) : World :=
  { respond := fun hist _ _ =>
      (outcomes.get? hist.length).getD (.error (.other "connection refused")),
    sent := [] }

/-- A GET request to the base URL, without query string. -/
def sampleRequest : Request :=
  { Method := "GET", URL := BaseURL, Header := [], Body := none, ctx := Context.Background }

/-- A client made by `NewClient` with the key `key`. -/
def sampleClient : Client :=
  { httpClient := .DefaultClient, apiKey := "key", oauth2Config := none }

/-! ## Vocabulary of the statements: the options of the package -/

/-- The request options the package provides: those built by `OptionBody`, `OptionContext`,
`OptionQuery` and `OptionOAuthToken`. -/
inductive StdOption : RequestOption → Prop where
  | body (r : String) : StdOption (OptionBody r)
  | context (ctx : Context) : StdOption (OptionContext ctx)
  | query (key value : String) : StdOption (OptionQuery key value)
  | token (t : Token) : StdOption (OptionOAuthToken t)

/-! ## client.go: the client in memory -/

/-- The Go struct `Client` as it lies in memory: its plain fields and, for each of its three
service pointers, the address of the client that the field `c` of that service holds. -/
structure ClientObj where
  fields : Client
  GroupV2Service : Nat
  Destiny2Service : Nat
  UserService : Nat
deriving DecidableEq, Repr

/-- The clients in memory; a `*Client` is an index into the list. -/
abbrev Heap := List ClientObj

/-- NewClient creates and returns a new client: its three services refer back to it. -/
def NewClient (apiKey : String) (h : Heap) : Nat × Heap :=
  let c := h.length
  (c, h ++ [{ fields := { apiKey := apiKey, httpClient := .DefaultClient, oauth2Config := none },
              GroupV2Service := c, Destiny2Service := c, UserService := c }])

/-- SetOAuthCredentials sets the OAuth2 credentials on the client; `none` when the pointer
refers to no client. -/
def SetOAuthCredentials (c : Nat) (clientID clientSecret : String) (h : Heap) :
    Option (Nat × Heap) :=
  match h[c]? with
  | none => none
  | some obj =>
    let conf : OAuth2Config :=
      { ClientID := clientID, ClientSecret := clientSecret,
        AuthURL := "https://www.bungie.net/en/oauth/authorize",
        TokenURL := "https://www.bungie.net/Platform/App/OAuth/token/" }
    some (c, h.set c { obj with fields := { obj.fields with oauth2Config := some conf } })

/-- SetHTTPClient sets the client used when communicating with the Destiny 2 API, on the
struct the pointer refers to. -/
def SetHTTPClient (obj : ClientObj) (httpClient : HTTPClient) : ClientObj :=
  { obj with fields := { obj.fields with httpClient := httpClient } }

/-- WithOAuth2Token returns a copy of Client but with the http client being set to one that
is authorized. The receiver is a value, so the struct is copied field by field (the service
pointers included), the http client is set on the copy, and the copy is returned at a new
address; `none` when the pointer refers to no client. -/
def WithOAuth2Token (c : Nat) (t : Token) (h : Heap) : Option (Nat × Heap) :=
  match h[c]? with
  | none => none
  | some obj =>
    let copy := SetHTTPClient obj (.authorized obj.fields.oauth2Config t)
    some (h.length, h ++ [copy])

/-- The service `c.GroupV2Service` of the client at address `c`, with the client its field
`c` refers to. -/
def Heap.GroupV2Service (h : Heap) (c : Nat) : Option GroupV2Service :=
  match h[c]? with
  | none => none
  | some obj => (h[obj.GroupV2Service]?).map (fun target => ⟨target.fields⟩)

/-- The service `c.UserService` of the client at address `c`, with the client its field `c`
refers to. -/
def Heap.UserService (h : Heap) (c : Nat) : Option UserService :=
  match h[c]? with
  | none => none
  | some obj => (h[obj.UserService]?).map (fun target => ⟨target.fields⟩)

/-- The http clients with which the requests of a run were dispatched, in order. -/
def World.dispatchedWith (w : World) : List HTTPClient :=
  w.sent.map (fun sent => sent.1)

end destiny2


namespace app

open destiny2

/-! ## Collaborators of the application -/

/-- Go's `strconv.ParseUint(s, 10, 64)`: the value and the error; 0 on a syntax error and the
largest value on a range error. -/
def ParseUint (s : String) : Nat × Option GoError :=
  if s.data ≠ [] ∧ s.data.all Char.isDigit then
    let n := s.data.foldl (fun n c => n * 10 + (c.toNat - '0'.toNat)) 0
    if n < 2 ^ 64 then (n, none)
    else (2 ^ 64 - 1, some (.other ("strconv.ParseUint: parsing " ++ s ++ ": value out of range")))
  else (0, some (.other ("strconv.ParseUint: parsing " ++ s ++ ": invalid syntax")))

/-- The `discordgo.User` of a member. -/
structure DiscordUser where
  ID : String
deriving DecidableEq, Repr

/-- A `discordgo.Member`. -/
structure Member where
  User : DiscordUser
  Nick : String
deriving DecidableEq, Repr

/-- A `discordgo.Guild` of the bot's state. -/
structure Guild where
  ID : String
  Members : List Member
deriving DecidableEq, Repr

/-! ## repo.go -/

/-- User represents a discord user that has connected their Destiny 2 account. -/
structure User where
  ID : Nat
  MembershipType : Int
  MembershipID : Int
  AccessToken : String
  RefreshToken : String
  Expiry : Int
deriving DecidableEq, Repr

/-- Token creates and returns an oauth2.Token for the user. -/
def User.Token (u : User) : Token :=
  { AccessToken := u.AccessToken, RefreshToken := u.RefreshToken, Expiry := u.Expiry,
    TokenType := "Bearer" }

/-! ## client.go: the OAuth configuration, read by the jobs -/

/-- GetOAuthConfig gets the OAuth2 config set on the client, or the zero config. -/
def GetOAuthConfig (c : Client) : OAuth2Config :=
  match c.oauth2Config with
  | none => { ClientID := "", ClientSecret := "", AuthURL := "", TokenURL := "" }
  | some conf => conf

/-! ## app.go and jobs.go -/

/-- The fields of `App` the jobs read: the Destiny 2 client, the user service its
`UserService` pointer refers to, and the shared cancellable context. -/
structure App where
  d2Client : Client
  UserService : UserService
  ctx : Context

/-- A scheduled function `func(ctx context.Context) error` acting on a state `σ`. -/
abbrev Job (σ : Type) := Context → σ → Option GoError × σ

/-- The state of a tick of `scheduleEvery`: the state the jobs act on, the lines written to
standard output, and the record of the invocations made (the index of the function in the
list, the context passed, the error returned). -/
structure TickState (σ : Type) where
  state : σ
  stdout : List String
  invoked : List (Nat × Context × Option GoError)

/-- The inner loop of `scheduleEvery` (jobs.go 28-38) over the functions from index `i` on:
calls the functions sequentially, breaks at an error that is a cancelled error and prints
any other error. -/
def App.scheduleEvery.runJobs {σ : Type} (a : App) :
    List (Job σ) → Nat → TickState σ → TickState σ
  | [], _, s => s
  | fn :: fns, i, s =>
    match fn a.ctx s.state with
    | (none, st) =>
      App.scheduleEvery.runJobs a fns (i + 1)
        { state := st, stdout := s.stdout, invoked := s.invoked ++ [(i, a.ctx, none)] }
    | (some err, st) =>
      if err.Is .canceled then
        { state := st, stdout := s.stdout, invoked := s.invoked ++ [(i, a.ctx, some err)] }
      else
        App.scheduleEvery.runJobs a fns (i + 1)
          { state := st,
            stdout := s.stdout ++ ["Errored running scheduled job: " ++ err.Error ++ "\n"],
            invoked := s.invoked ++ [(i, a.ctx, some err)] }

/-- One tick of `scheduleEvery`: the inner loop over the whole list. -/
def App.scheduleEvery.tick {σ : Type} (a : App) (fns : List (Job σ)) (s : TickState σ) :
    TickState σ :=
  App.scheduleEvery.runJobs a fns 0 s

/-- The place of a collaborator call within one run of `SetNicknames`: the index of the guild
in the snapshot and the index of the member in the guild. -/
structure Site where
  guild : Nat
  member : Nat
deriving DecidableEq, Repr

/-- What the collaborators answer during one run of `SetNicknames`. The guilds are handled
concurrently and share the collaborators, so the answer to a call is given per site. -/
structure Collaborators where
  /-- `a.repo.GetUserByID(ctx, memID)` -/
  GetUserByID : Site → Nat → Except GoError User
  /-- `config.TokenSource(ctx, t).Token()` -/
  RefreshToken : Site → OAuth2Config → Token → Except GoError Token
  /-- the decoders the Destiny 2 client uses -/
  rt : Runtime
  /-- the network as the Destiny 2 client finds it at the call made at the site -/
  network : Site → World
  /-- `a.bot.GuildMemberNickname(guildID, userID, nickname)` -/
  GuildMemberNickname : Site → String → String → String → Option GoError

/-- What one guild's goroutine does, in order. -/
inductive Event where
  /-- a call of `a.repo.GetUserByID` -/
  | getUser (memID : Nat)
  /-- a call of `Token` on the token source made from the stored token -/
  | refresh (t : Token)
  /-- a call of `GetMembershipDataForCurrentUser` with the token as OAuth option -/
  | getMemberships (t : Token)
  /-- a call of `a.bot.GuildMemberNickname` -/
  | rename (guildID userID nick : String)
  /-- a line written by `fmt.Printf` -/
  | printf (line : String)
  /-- the value written by `fmt.Println(dUser)` -/
  | println (dUser : UserMembershipData)
deriving DecidableEq, Repr

/-- The loop "finding active destiny 2 account" of `SetNicknames` (jobs.go 108-116). -/
def App.SetNicknames.findActive (env : Collaborators) (site : Site) (guild : Guild)
    (member : Member) : List GroupUserInfoCard → List Event
  | [] => []
  | d2Acc :: rest =>
    if d2Acc.CrossSaveOverride = d2Acc.MembershipType then
      match env.GuildMemberNickname site guild.ID member.User.ID d2Acc.DisplayName with
      | some err =>
        [.rename guild.ID member.User.ID d2Acc.DisplayName,
         .printf ("Error changing nickname: " ++ err.Error ++ "\n")]
      | none => [.rename guild.ID member.User.ID d2Acc.DisplayName]
    else App.SetNicknames.findActive env site guild member rest

/-- The body of the member loop of `setNicksForGuild` (jobs.go 75-116). -/
def App.SetNicknames.forMember (a : App) (env : Collaborators) (site : Site) (guild : Guild)
    (member : Member) : List Event :=
  let config := GetOAuthConfig a.d2Client
  let memID := (ParseUint member.User.ID).1
  match env.GetUserByID site memID with
  | .error err =>
    if err.Is .noRows then [.getUser memID]
    else [.getUser memID, .printf ("Error getting user from database: " ++ err.Error ++ "\n")]
  | .ok user =>
    let t := user.Token
    match env.RefreshToken site config t with
    | .error err =>
      [.getUser memID, .refresh t,
       .printf ("Failed to refresh token for user " ++ Char.toString (Char.ofNat 39)
         ++ toString user.ID ++ Char.toString (Char.ofNat 39) ++ ": " ++ err.Error ++ "\n")]
    | .ok tNew =>
      match (a.UserService.GetMembershipDataForCurrentUser env.rt [OptionOAuthToken tNew]
          (env.network site)).1 with
      | (dUser, some err) =>
        [.getUser memID, .refresh t, .getMemberships tNew, .println dUser,
         .printf ("Error getting user data: " ++ err.Error ++ "\n")]
      | (dUser, none) =>
        [.getUser memID, .refresh t, .getMemberships tNew, .println dUser]
          ++ App.SetNicknames.findActive env site guild member dUser.DestinyMemberships

/-- The function `setNicksForGuild` of `SetNicknames` over the members from index `j` on. -/
def App.SetNicknames.setNicksForGuild (a : App) (env : Collaborators) (g : Nat) (guild : Guild) :
    List Member → Nat → List Event
  | [], _ => []
  | member :: rest, j =>
    App.SetNicknames.forMember a env ⟨g, j⟩ guild member
      ++ App.SetNicknames.setNicksForGuild a env g guild rest (j + 1)

/-- The goroutines of `SetNicknames` over the guilds from index `g` on: what each does. -/
def App.SetNicknames.goroutines (a : App) (env : Collaborators) : List Guild → Nat →
    List (List Event)
  | [], _ => []
  | guild :: rest, g =>
    App.SetNicknames.setNicksForGuild a env g guild guild.Members 0
      :: App.SetNicknames.goroutines a env rest (g + 1)

/-- SetNicknames sets the nickname of every member, if they have their Destiny 2 account
registered with the bot, of every guild the bot is connected to: what the goroutine of each
guild of the snapshot does, and the error returned once all have finished. -/
def App.SetNicknames (a : App) (env : Collaborators) (guilds : List Guild) :
    List (List Event) × Option GoError :=
  (App.SetNicknames.goroutines a env guilds 0, none)

/-! ## Vocabulary of the statements -/

/-- The event is a rename. -/
def Event.isRename : Event → Bool
  | .rename _ _ _ => true
  | _ => false

/-- The member id looked up, when the event is the account lookup that opens the handling
of a member. -/
def Event.startedMember : Event → Option Nat
  | .getUser memID => some memID
  | _ => none

/-! ## Concrete collaborators, for runs on concrete inputs -/

/-- A stored user with the given id. -/
def sampleUser (id : Nat) : User :=
  { ID := id, MembershipType := 3, MembershipID := 42, AccessToken := "access",
    RefreshToken := "fresh", Expiry := 0 }

/-- An application whose Destiny 2 client is the sample client. -/
def sampleApp : App :=
  { d2Client := sampleClient, UserService := ⟨sampleClient⟩, ctx := ⟨"app"⟩ }

/-- Collaborators for which member 1 has a linked account, member 2 has none and any other
lookup fails in the store; tokens are returned as they are; the API answers every call with
the memberships a (inactive), B (active), c (inactive); renames succeed. -/
def sampleCollaborators : Collaborators where
  GetUserByID := fun _ id =>
    if id = 1 then .ok (sampleUser 1)
    else if id = 2 then .error .noRows
    else .error (.other "driver: bad connection")
  RefreshToken := fun _ _ t => .ok t
  rt := sampleRuntime
  network := fun _ => scripted [.ok (sampleResponse 200 "application/json" "RaBc")]
  GuildMemberNickname := fun _ _ _ _ => none

/-- A guild with the three members 2, 1 and x. -/
def sampleGuild : Guild :=
  { ID := "g", Members := [⟨⟨"2"⟩, "two"⟩, ⟨⟨"1"⟩, "one"⟩, ⟨⟨"x"⟩, "ex"⟩] }

/-! ## repo.go: the store and `SyncGuilds` -/

/-- Guild represents a discord guild in the database (the Go struct `Guild` of repo.go). -/
structure DBGuild where
  ID : Nat
  GroupID : Option Int
deriving DecidableEq, Repr

/-- The condition of a statement as squirrel renders `sq.NotEq` with a list value: `column
NOT IN (args)`, and `(1=1)` when the list is empty. -/
inductive Where where
  | notIn (column : String) (args : List Nat)
  | sqlTrue
deriving DecidableEq, Repr

/-- A statement `DELETE FROM table WHERE cond` with its arguments. -/
structure DeleteStmt where
  table : String
  cond : Where
deriving DecidableEq, Repr

/-- The statement `sq.Delete(table).Where(sq.NotEq{column: ids}).ToSql()`. -/
def deleteNotEq (table column : String) (ids : List Nat) : DeleteStmt :=
  { table := table, cond := if ids = [] then .sqlTrue else .notIn column ids }

/-- The database behind the repo: the rows of the table `guilds`, and the error with which
the connection refuses a statement, if it does (a lost connection, a cancelled context). -/
structure DB where
  guilds : List DBGuild
  failing : Option GoError
deriving DecidableEq, Repr

/-- The call `ExecContext` of a DELETE statement on the database: a refused statement changes
nothing, and an accepted one removes from `guilds` the rows for which the condition on the
column `id` holds. -/
def DB.ExecContext (db : DB) (stmt : DeleteStmt) : Option GoError × DB :=
  match db.failing with
  | some err => (some err, db)
  | none =>
    if stmt.table = "guilds" then
      match stmt.cond with
      | .sqlTrue => (none, { db with guilds := [] })
      | .notIn column args =>
        if column = "id" then
          (none, { db with guilds := db.guilds.filter (fun g => decide (g.ID ∈ args)) })
        else (some (.other ("Unknown column " ++ column)), db)
    else (some (.other ("Table " ++ stmt.table ++ " doesn't exist")), db)

/-- SyncGuilds deletes guilds from the database that do not appear in the provided guildIDs
array. The context of the scheduler carries no transaction, so the statement runs on the
database itself. -/
def SyncGuilds (db : DB) (guildIDs : List Nat) : Option GoError × DB :=
  db.ExecContext (deleteNotEq "guilds" "id" guildIDs)

/-- DeleteRemovedGuilds syncs discord guild information with the database; `guilds` is the
snapshot `a.bot.State.Guilds`. -/
def App.DeleteRemovedGuilds (guilds : List Guild) (db : DB) : Option GoError × DB :=
  let sGuildIDs := guilds.map (fun guild => (ParseUint guild.ID).1)
  SyncGuilds db sGuildIDs

/-- A database with the guild rows of the given ids, and a working connection. -/
def sampleDB (ids : List Nat) : DB :=
  { guilds := ids.map (fun id => { ID := id, GroupID := none }), failing := none }

/-- A connected guild with the given id and no members. -/
def sampleConnected (id : String) : Guild :=
  { ID := id, Members := [] }

/-! ## jobs.go: the loop of `scheduleEvery` -/

/-- What the `select` of `scheduleEvery` finds when it proceeds (it blocks until one of its
cases can): only the cancellation signal, only a tick, or both, and then the case the
runtime picks (Go chooses among the ready cases at random). -/
inductive Wakeup where
  | done
  | tick
  | both (picksTick : Bool)
deriving DecidableEq, Repr

/-- The case the `select` takes: `true` for `<-ticker.C`, `false` for `<-done`. -/
def Wakeup.takesTick : Wakeup → Bool
  | .done => false
  | .tick => true
  | .both picksTick => picksTick

/-- What `scheduleEvery` does, in order. -/
inductive SchedEvent where
  /-- the call of the function at index `i` with the context, and the error it returned -/
  | call (i : Nat) (ctx : Context) (err : Option GoError)
  /-- the `select` proceeds -/
  | select (w : Wakeup)
deriving DecidableEq, Repr

/-- A run of `scheduleEvery` as far as observed: the state the jobs left, the lines written,
the events in order, and whether the function has returned (otherwise it is blocked in its
`select`). -/
structure SchedRun (σ : Type) where
  state : σ
  stdout : List String
  log : List SchedEvent
  returned : Bool

/-- The events of the calls recorded by a tick. -/
def callEvents (invoked : List (Nat × Context × Option GoError)) : List SchedEvent :=
  invoked.map (fun r => .call r.1 r.2.1 r.2.2)

/-- The loop of `scheduleEvery` (jobs.go 25-45) against the wake-ups its `select` meets, one
per iteration: the functions are called, then the `select` either returns or goes on to the
next iteration. When the wake-ups are used up the loop is left blocked in the `select`. -/
def App.scheduleEvery.loop {σ : Type} (a : App) (fns : List (Job σ)) :
    List Wakeup → σ → List String → SchedRun σ
  | [], state, stdout =>
    let s := App.scheduleEvery.tick a fns { state := state, stdout := stdout, invoked := [] }
    { state := s.state, stdout := s.stdout, log := callEvents s.invoked, returned := false }
  | w :: rest, state, stdout =>
    let s := App.scheduleEvery.tick a fns { state := state, stdout := stdout, invoked := [] }
    if w.takesTick then
      let r := App.scheduleEvery.loop a fns rest s.state s.stdout
      { r with log := callEvents s.invoked ++ [.select w] ++ r.log }
    else
      { state := s.state, stdout := s.stdout, log := callEvents s.invoked ++ [.select w],
        returned := true }

/-- The method `scheduleEvery` with the interval `d` in nanoseconds: `time.NewTicker` panics
for an interval that is not positive (`none`); otherwise the loop runs. -/
def App.scheduleEvery {σ : Type} (a : App) (d : Int) (fns : List (Job σ))
    (wakeups : List Wakeup) (state : σ) : Option (SchedRun σ) :=
  if d ≤ 0 then none
  else some (App.scheduleEvery.loop a fns wakeups state [])

/-- Go's `time.Minute`, in nanoseconds. -/
def Minute : Int := 60000000000

/-- A job that returns `context.Canceled` and one that counts. -/
def sampleJobs : List (Job Nat) :=
  [fun _ n => (some .canceled, n), fun _ n => (none, n + 1)]

end app

/-! # Theorems -/

namespace destiny2

/-- The request of a GET call is always created: `GET` is a valid method. -/
theorem Client.doRequest_GET (c : Client) (endpoint : String) (opts : List RequestOption) :
    ∃ req, c.doRequest "GET" endpoint opts = .ok req := by
  unfold Client.doRequest NewRequest
  have h : (if ("GET" : String) = "" then "GET" else "GET").data.all isTokenChar = true := by
    decide
  simp only [h, if_true]
  exact ⟨_, rfl⟩

/-- C1: for a response of content type application/json whose body decodes to an envelope
with an error code other than 1, `Client.do` leaves the destination alone and returns
ErrNotFound for code 21, ErrWebAuthRequired for code 99 and ErrUnknown for every other
code, whatever the status code of the response. -/
theorem Client.do_error_code {δ : Type} (rt : Runtime) (unmarshal : Unmarshal δ) (c : Client)
    (method endpoint : String) (dst : δ) (opts : List RequestOption) (w : World)
    (req : Request) (resp : Response) (env : Envelope)
    (hreq : c.doRequest method endpoint opts = .ok req)
    (hresp : w.respond w.sent c.httpClient req = .ok resp)
    (hct : rt.ParseMediaType (Header.Get resp.Header "Content-Type") = .ok "application/json")
    (hdec : rt.DecodeEnvelope resp.Body = .ok env)
    (hcode : env.ErrorCode ≠ 1) :
    (env.ErrorCode = 21 →
      (c.do rt unmarshal method endpoint dst opts w).1 = (dst, some (.simple ErrNotFound))) ∧
    (env.ErrorCode = 99 →
      (c.do rt unmarshal method endpoint dst opts w).1
        = (dst, some (.simple ErrWebAuthRequired))) ∧
    (env.ErrorCode ≠ 21 → env.ErrorCode ≠ 99 →
      (c.do rt unmarshal method endpoint dst opts w).1 = (dst, some (.simple ErrUnknown))) := by
  have hdo : (c.do rt unmarshal method endpoint dst opts w).1
      = if env.ErrorCode = 21 then (dst, some (.simple ErrNotFound))
        else if env.ErrorCode = 99 then (dst, some (.simple ErrWebAuthRequired))
        else (dst, some (.simple ErrUnknown)) := by
    simp [Client.do, HTTPClient.Do, hreq, hresp, Client.doResponse, hct, hdec, hcode]
  refine ⟨fun h => ?_, fun h => ?_, fun h1 h2 => ?_⟩
  · rw [hdo, if_pos h]
  · rw [hdo, if_neg (by omega), if_pos h]
  · rw [hdo, if_neg h1, if_neg h2]

/-- Witness of C1: a response with status 200 and the JSON body of error code 21. -/
theorem Client.do_error_code_witness :
    (sampleClient.do sampleRuntime sampleRuntime.UnmarshalSearchResult "GET" "/GroupV2/1/Members"
        SearchResultOfGroupMember.zero []
        (scripted [.ok (sampleResponse 200 "application/json" "E21")])).1
      = (SearchResultOfGroupMember.zero, some (.simple ErrNotFound)) :=
  (Client.do_error_code sampleRuntime sampleRuntime.UnmarshalSearchResult sampleClient "GET"
    "/GroupV2/1/Members" SearchResultOfGroupMember.zero []
    (scripted [.ok (sampleResponse 200 "application/json" "E21")])
    _ (sampleResponse 200 "application/json" "E21") (sampleEnvelope 21 "")
    rfl rfl rfl rfl (by decide)).1 (by decide)

/-- C2: for a response of content type application/json whose envelope has error code 1,
`Client.do` hands the raw `Response` payload of the envelope and the destination to
`json.Unmarshal` and returns exactly what that call leaves: the decoded destination with no
error when it succeeds, and its error, unchanged, when it fails. -/
theorem Client.do_success {δ : Type} (rt : Runtime) (unmarshal : Unmarshal δ) (c : Client)
    (method endpoint : String) (dst : δ) (opts : List RequestOption) (w : World)
    (req : Request) (resp : Response) (env : Envelope)
    (hreq : c.doRequest method endpoint opts = .ok req)
    (hresp : w.respond w.sent c.httpClient req = .ok resp)
    (hct : rt.ParseMediaType (Header.Get resp.Header "Content-Type") = .ok "application/json")
    (hdec : rt.DecodeEnvelope resp.Body = .ok env)
    (hcode : env.ErrorCode = 1) :
    (c.do rt unmarshal method endpoint dst opts w).1 = unmarshal env.Response dst ∧
    (∀ dst', unmarshal env.Response dst = (dst', none) →
      (c.do rt unmarshal method endpoint dst opts w).1 = (dst', none)) ∧
    (∀ dst' err, unmarshal env.Response dst = (dst', some err) →
      (c.do rt unmarshal method endpoint dst opts w).1.2 = some err) := by
  have hdo : (c.do rt unmarshal method endpoint dst opts w).1 = unmarshal env.Response dst := by
    simp [Client.do, HTTPClient.Do, hreq, hresp, Client.doResponse, hct, hdec, hcode]
  refine ⟨hdo, fun dst' h => ?_, fun dst' err h => ?_⟩
  · rw [hdo, h]
  · rw [hdo, h]

/-- Witness of C2: a page of two members is decoded into the destination, with no error. -/
theorem Client.do_success_witness :
    (sampleClient.do sampleRuntime sampleRuntime.UnmarshalSearchResult "GET" "/GroupV2/1/Members"
        SearchResultOfGroupMember.zero []
        (scripted [.ok (sampleResponse 200 "application/json" "Rab+")])).1
      = ({ SearchResultOfGroupMember.zero with
            Results := [sampleMember "a", sampleMember "b"], HasMore := true }, none) :=
  (Client.do_success sampleRuntime sampleRuntime.UnmarshalSearchResult sampleClient "GET"
    "/GroupV2/1/Members" SearchResultOfGroupMember.zero []
    (scripted [.ok (sampleResponse 200 "application/json" "Rab+")])
    _ (sampleResponse 200 "application/json" "Rab+") (sampleEnvelope 1 "ab+")
    rfl rfl rfl rfl rfl).2.1 _ rfl

/-- C3: for a response whose Content-Type parses to a media type other than
application/json, whatever its status code and body, `Client.do` leaves the destination
alone and returns ErrUnautorized for status 401, ErrNotFound for status 404 and ErrUnknown
for every other status; it never returns success. -/
theorem Client.do_not_json {δ : Type} (rt : Runtime) (unmarshal : Unmarshal δ) (c : Client)
    (method endpoint : String) (dst : δ) (opts : List RequestOption) (w : World)
    (req : Request) (resp : Response) (contentType : String)
    (hreq : c.doRequest method endpoint opts = .ok req)
    (hresp : w.respond w.sent c.httpClient req = .ok resp)
    (hct : rt.ParseMediaType (Header.Get resp.Header "Content-Type") = .ok contentType)
    (hne : contentType ≠ "application/json") :
    (resp.StatusCode = 401 →
      (c.do rt unmarshal method endpoint dst opts w).1
        = (dst, some (.simple ErrUnautorized))) ∧
    (resp.StatusCode = 404 →
      (c.do rt unmarshal method endpoint dst opts w).1 = (dst, some (.simple ErrNotFound))) ∧
    (resp.StatusCode ≠ 401 → resp.StatusCode ≠ 404 →
      (c.do rt unmarshal method endpoint dst opts w).1 = (dst, some (.simple ErrUnknown))) ∧
    (c.do rt unmarshal method endpoint dst opts w).1.1 = dst ∧
    (c.do rt unmarshal method endpoint dst opts w).1.2 ≠ none := by
  have hdo : (c.do rt unmarshal method endpoint dst opts w).1
      = if resp.StatusCode = 401 then (dst, some (.simple ErrUnautorized))
        else if resp.StatusCode = 404 then (dst, some (.simple ErrNotFound))
        else (dst, some (.simple ErrUnknown)) := by
    simp [Client.do, HTTPClient.Do, hreq, hresp, Client.doResponse, hct, hne,
      StatusUnauthorized, StatusNotFound]
  refine ⟨fun h => ?_, fun h => ?_, fun h1 h2 => ?_, ?_, ?_⟩
  · rw [hdo, if_pos h]
  · rw [hdo, if_neg (by omega), if_pos h]
  · rw [hdo, if_neg h1, if_neg h2]
  · rw [hdo]; split_ifs <;> rfl
  · rw [hdo]; split_ifs <;> simp

/-- Witness of C3: an HTML page with status 200 is ErrUnknown, not a success. -/
theorem Client.do_not_json_witness :
    (sampleClient.do sampleRuntime sampleRuntime.UnmarshalSearchResult "GET" "/GroupV2/1/Members"
        SearchResultOfGroupMember.zero []
        (scripted [.ok (sampleResponse 200 "text/html" "Rab+")])).1
      = (SearchResultOfGroupMember.zero, some (.simple ErrUnknown)) :=
  (Client.do_not_json sampleRuntime sampleRuntime.UnmarshalSearchResult sampleClient "GET"
    "/GroupV2/1/Members" SearchResultOfGroupMember.zero []
    (scripted [.ok (sampleResponse 200 "text/html" "Rab+")])
    _ (sampleResponse 200 "text/html" "Rab+") "text/html"
    rfl rfl rfl (by decide)).2.2.1 (by decide) (by decide)

/-- A page call whose transport outcome serves page `p` returns `p` and no error, after
one request. -/
theorem GroupV2Service.GetMembersOfGroup_serves (rt : Runtime) (gs : GroupV2Service)
    (gid : Int) (opts : List RequestOption) (w : World) (p : SearchResultOfGroupMember)
    (h : ∀ req, ServesPage rt (w.respond w.sent gs.c.httpClient req) p) :
    ∃ w', gs.GetMembersOfGroup rt gid opts w = ((p, none), w') ∧ w'.respond = w.respond ∧
      w'.sent.length = w.sent.length + 1 := by
  obtain ⟨req, hreq⟩ := Client.doRequest_GET gs.c
    (pathJoin ["/GroupV2", "/" ++ toString gid ++ "/Members"]) opts
  obtain ⟨resp, hresp, hpage⟩ := h req
  refine ⟨{ w with sent := w.sent ++ [(gs.c.httpClient, req)] }, ?_, rfl, by simp⟩
  simp [GroupV2Service.GetMembersOfGroup, GroupV2Service.do, Client.do, HTTPClient.Do, hreq,
    hresp, hpage]

/-- A page call whose transport outcome fails with `e` returns `e`, after one request. -/
theorem GroupV2Service.GetMembersOfGroup_fails (rt : Runtime) (gs : GroupV2Service)
    (gid : Int) (opts : List RequestOption) (w : World) (e : GoError)
    (h : ∀ req, FailsPage rt (w.respond w.sent gs.c.httpClient req) e) :
    ∃ r w', gs.GetMembersOfGroup rt gid opts w = ((r, some e), w') ∧ w'.respond = w.respond ∧
      w'.sent.length = w.sent.length + 1 := by
  obtain ⟨req, hreq⟩ := Client.doRequest_GET gs.c
    (pathJoin ["/GroupV2", "/" ++ toString gid ++ "/Members"]) opts
  rcases h req with herr | ⟨resp, r, hresp, hpage⟩
  · refine ⟨SearchResultOfGroupMember.zero,
      { w with sent := w.sent ++ [(gs.c.httpClient, req)] }, ?_, rfl, by simp⟩
    simp [GroupV2Service.GetMembersOfGroup, GroupV2Service.do, Client.do, HTTPClient.Do, hreq,
      herr]
  · refine ⟨r, { w with sent := w.sent ++ [(gs.c.httpClient, req)] }, ?_, rfl, by simp⟩
    simp [GroupV2Service.GetMembersOfGroup, GroupV2Service.do, Client.do, HTTPClient.Do, hreq,
      hresp, hpage]

/-- The loop of `GetAllMembersOfGroup` over pages that all announce more: after one request
per page the loop stands at the next page number with the items of the pages appended to
the accumulator, in order. -/
theorem GroupV2Service.GetAllMembersOfGroup.loop_more (rt : Runtime) (gs : GroupV2Service)
    (gid : Int) (pages : List SearchResultOfGroupMember)
    (hmore : ∀ p ∈ pages, p.HasMore = true) :
    ∀ (w : World) (page : Nat) (opts : List RequestOption) (members : List GroupMember)
      (fuel : Nat),
      (∀ k p, pages[k]? = some p → ∀ hist cl req, hist.length = w.sent.length + k →
        ServesPage rt (w.respond hist cl req) p) →
      ∃ w' opts', w'.respond = w.respond ∧ w'.sent.length = w.sent.length + pages.length ∧
        GroupV2Service.GetAllMembersOfGroup.loop rt gs gid (fuel + pages.length) page opts
            members w
          = GroupV2Service.GetAllMembersOfGroup.loop rt gs gid fuel (page + pages.length) opts'
            (members ++ pages.flatMap (fun p => p.Results)) w' := by
  induction pages with
  | nil =>
    intro w page opts members fuel _
    exact ⟨w, opts, rfl, rfl, by simp⟩
  | cons p rest ih =>
    intro w page opts members fuel hserve
    have hp : p.HasMore = true := hmore p (List.mem_cons_self _ _)
    obtain ⟨w1, hcall, hresp1, hsent1⟩ := GroupV2Service.GetMembersOfGroup_serves rt gs gid
      (opts ++ [OptionQuery "currentPage" (toString page)]) w p
      (fun req => hserve 0 p (by simp) w.sent gs.c.httpClient req rfl)
    obtain ⟨w2, opts2, hresp2, hsent2, hloop⟩ := ih
      (fun q hq => hmore q (List.mem_cons_of_mem _ hq))
      w1 (page + 1) (opts ++ [OptionQuery "currentPage" (toString page)])
      (members ++ p.Results) fuel
      (fun k q hk hist cl req hlen => by
        rw [hresp1]
        exact hserve (k + 1) q (by simpa using hk) hist cl req (by omega))
    refine ⟨w2, opts2, by rw [hresp2, hresp1], by simp only [List.length_cons]; omega, ?_⟩
    have hfuel : fuel + (p :: rest).length = (fuel + rest.length) + 1 := by
      simp only [List.length_cons]; omega
    rw [hfuel, GroupV2Service.GetAllMembersOfGroup.loop, hcall]
    simp only [hp, Bool.not_true, Bool.false_eq_true, if_false]
    rw [hloop]
    simp only [List.length_cons, List.flatMap_cons, List.append_assoc]
    congr 1
    omega

/-- C4: when the page calls succeed with pages p1..pn, of which all but the last announce
more and the last does not, `GetAllMembersOfGroup` (given room for n pages) makes exactly n
page calls and returns, with no error, the items of p1, ..., pn concatenated in page order,
each page in its own order. -/
theorem GroupV2Service.GetAllMembersOfGroup_concat (rt : Runtime) (gs : GroupV2Service)
    (gid : Int) (opts : List RequestOption) (w : World)
    (pages : List SearchResultOfGroupMember) (last : SearchResultOfGroupMember)
    (hmore : ∀ p ∈ pages, p.HasMore = true) (hlast : last.HasMore = false)
    (hserve : ∀ k p, (pages ++ [last])[k]? = some p → ∀ hist cl req,
      hist.length = w.sent.length + k → ServesPage rt (w.respond hist cl req) p)
    (fuel : Nat) (hfuel : pages.length + 1 ≤ fuel) :
    ∃ w', gs.GetAllMembersOfGroup rt fuel gid opts w
        = some ((some ((pages ++ [last]).flatMap (fun p => p.Results)), none), w') ∧
      w'.sent.length = w.sent.length + (pages.length + 1) := by
  obtain ⟨f, rfl⟩ : ∃ f, fuel = (f + 1) + pages.length :=
    ⟨fuel - (pages.length + 1), by omega⟩
  obtain ⟨w1, opts1, hresp1, hsent1, hloop⟩ :=
    GroupV2Service.GetAllMembersOfGroup.loop_more rt gs gid pages hmore w 1 opts [] (f + 1)
      (fun k p hk hist cl req hlen => hserve k p (by
        have hlt : k < pages.length := by
          by_contra hge
          rw [List.getElem?_eq_none (by omega)] at hk
          exact absurd hk (by simp)
        rw [List.getElem?_append_left hlt]; exact hk) hist cl req hlen)
  obtain ⟨w2, hcall, _, hsent2⟩ := GroupV2Service.GetMembersOfGroup_serves rt gs gid
    (opts1 ++ [OptionQuery "currentPage" (toString (1 + pages.length))]) w1 last
    (fun req => by
      rw [hresp1]
      exact hserve pages.length last (by simp) w1.sent gs.c.httpClient req hsent1)
  refine ⟨w2, ?_, by omega⟩
  rw [GroupV2Service.GetAllMembersOfGroup, hloop, GroupV2Service.GetAllMembersOfGroup.loop,
    hcall]
  simp [hlast]

/-- Witness of C4: three pages of sizes 2, 2, 1 with "more" = true, true, false give the
five items in order, after three requests. -/
theorem GroupV2Service.GetAllMembersOfGroup_concat_witness :
    ∃ w', (GroupV2Service.mk sampleClient).GetAllMembersOfGroup sampleRuntime 5 7 []
        (scripted [.ok (sampleResponse 200 "application/json" "Rab+"),
          .ok (sampleResponse 200 "application/json" "Rcd+"),
          .ok (sampleResponse 200 "application/json" "Re")])
        = some ((some [sampleMember "a", sampleMember "b", sampleMember "c", sampleMember "d",
            sampleMember "e"], none), w') ∧
      w'.sent.length = 3 :=
  GroupV2Service.GetAllMembersOfGroup_concat sampleRuntime
    (GroupV2Service.mk sampleClient) 7 []
    (scripted [.ok (sampleResponse 200 "application/json" "Rab+"),
      .ok (sampleResponse 200 "application/json" "Rcd+"),
      .ok (sampleResponse 200 "application/json" "Re")])
    [{ SearchResultOfGroupMember.zero with
        Results := [sampleMember "a", sampleMember "b"], HasMore := true },
      { SearchResultOfGroupMember.zero with
        Results := [sampleMember "c", sampleMember "d"], HasMore := true }]
    { SearchResultOfGroupMember.zero with Results := [sampleMember "e"], HasMore := false }
    (by decide) (by decide)
    (by
      intro k p hk hist cl req hlen
      have hk3 : k < 3 := by
        by_contra hge
        rw [List.getElem?_eq_none (by simp; omega)] at hk
        exact absurd hk (by simp)
      have hlen' : hist.length = k := by simpa [scripted] using hlen
      interval_cases k
      · obtain rfl : _ = p := Option.some.inj hk
        exact ⟨sampleResponse 200 "application/json" "Rab+", by simp [scripted, hlen'], rfl⟩
      · obtain rfl : _ = p := Option.some.inj hk
        exact ⟨sampleResponse 200 "application/json" "Rcd+", by simp [scripted, hlen'], rfl⟩
      · obtain rfl : _ = p := Option.some.inj hk
        exact ⟨sampleResponse 200 "application/json" "Re", by simp [scripted, hlen'], rfl⟩)
    5 (by decide)

/-- C5: when the first k-1 page calls succeed with pages that announce more and the k-th
page call fails with error `e`, `GetAllMembersOfGroup` (given room for k pages) makes
exactly k page calls and returns `e` with the nil slice: the items of the pages before are
not returned. -/
theorem GroupV2Service.GetAllMembersOfGroup_error (rt : Runtime) (gs : GroupV2Service)
    (gid : Int) (opts : List RequestOption) (w : World)
    (pages : List SearchResultOfGroupMember) (e : GoError)
    (hmore : ∀ p ∈ pages, p.HasMore = true)
    (hserve : ∀ k p, pages[k]? = some p → ∀ hist cl req,
      hist.length = w.sent.length + k → ServesPage rt (w.respond hist cl req) p)
    (hfail : ∀ hist cl req, hist.length = w.sent.length + pages.length →
      FailsPage rt (w.respond hist cl req) e)
    (fuel : Nat) (hfuel : pages.length + 1 ≤ fuel) :
    ∃ w', gs.GetAllMembersOfGroup rt fuel gid opts w = some ((none, some e), w') ∧
      w'.sent.length = w.sent.length + (pages.length + 1) := by
  obtain ⟨f, rfl⟩ : ∃ f, fuel = (f + 1) + pages.length :=
    ⟨fuel - (pages.length + 1), by omega⟩
  obtain ⟨w1, opts1, hresp1, hsent1, hloop⟩ :=
    GroupV2Service.GetAllMembersOfGroup.loop_more rt gs gid pages hmore w 1 opts [] (f + 1)
      hserve
  obtain ⟨r, w2, hcall, _, hsent2⟩ := GroupV2Service.GetMembersOfGroup_fails rt gs gid
    (opts1 ++ [OptionQuery "currentPage" (toString (1 + pages.length))]) w1 e
    (fun req => by
      rw [hresp1]
      exact hfail w1.sent gs.c.httpClient req hsent1)
  refine ⟨w2, ?_, by omega⟩
  rw [GroupV2Service.GetAllMembersOfGroup, hloop, GroupV2Service.GetAllMembersOfGroup.loop,
    hcall]

/-- Witness of C5: the first page has two items and announces more, the second page call
gets a JSON body with error code 21: the result is ErrNotFound and the nil slice, after two
requests. -/
theorem GroupV2Service.GetAllMembersOfGroup_error_witness :
    ∃ w', (GroupV2Service.mk sampleClient).GetAllMembersOfGroup sampleRuntime 5 7 []
        (scripted [.ok (sampleResponse 200 "application/json" "Rab+"),
          .ok (sampleResponse 404 "application/json" "E21")])
        = some ((none, some (.simple ErrNotFound)), w') ∧
      w'.sent.length = 2 :=
  GroupV2Service.GetAllMembersOfGroup_error sampleRuntime
    (GroupV2Service.mk sampleClient) 7 []
    (scripted [.ok (sampleResponse 200 "application/json" "Rab+"),
      .ok (sampleResponse 404 "application/json" "E21")])
    [{ SearchResultOfGroupMember.zero with
        Results := [sampleMember "a", sampleMember "b"], HasMore := true }]
    (.simple ErrNotFound)
    (by decide)
    (by
      intro k p hk hist cl req hlen
      have hk1 : k < 1 := by
        by_contra hge
        rw [List.getElem?_eq_none (by simp; omega)] at hk
        exact absurd hk (by simp)
      have hlen' : hist.length = k := by simpa [scripted] using hlen
      interval_cases k
      obtain rfl : _ = p := Option.some.inj hk
      exact ⟨sampleResponse 200 "application/json" "Rab+", by simp [scripted, hlen'], rfl⟩)
    (by
      intro hist cl req hlen
      have hlen' : hist.length = 1 := by simpa [scripted] using hlen
      exact Or.inr ⟨sampleResponse 404 "application/json" "E21", SearchResultOfGroupMember.zero,
        by simp [scripted, hlen'], rfl⟩)
    5 (by decide)

/-- Adding a value to a map appends it to the values of its key and leaves the other keys. -/
theorem Values.get_Add (v : Values) (k x k' : String) :
    (v.Add k x).get k' = if k = k' then v.get k' ++ [x] else v.get k' := by
  induction v with
  | nil =>
    by_cases h : k = k' <;> simp [Values.Add, Values.get, h]
  | cons e rest ih =>
    obtain ⟨k0, vs⟩ := e
    simp only [Values.Add]
    by_cases h0 : k0 = k
    · rw [if_pos h0]
      subst h0
      by_cases h : k0 = k' <;> simp [Values.get, h]
    · rw [if_neg h0]
      simp only [Values.get, ih]
      by_cases h1 : k0 = k'
      · have h : ¬ k = k' := fun hk => h0 (h1.trans hk.symm)
        simp [h1, h]
      · simp [h1]

/-- Adding the pairs of a query string to a map appends, per key, the values of the key. -/
theorem ParseQuery_foldl_get (raw : RawQuery) (v : Values) (k : String) :
    (raw.foldl (fun v kv => v.Add kv.1 kv.2) v).get k = v.get k ++ RawQuery.values raw k := by
  induction raw generalizing v with
  | nil => simp [RawQuery.values]
  | cons kv rest ih =>
    rw [List.foldl_cons, ih, Values.get_Add]
    by_cases h : kv.1 = k <;> simp [RawQuery.values, h] at *

/-- The parsed query holds for each key the values the query string carries for it. -/
theorem ParseQuery_get (raw : RawQuery) (k : String) :
    (ParseQuery raw).get k = RawQuery.values raw k := by
  simp [ParseQuery, ParseQuery_foldl_get, Values.get]

/-- Inserting a key into a list of keys adds it once. -/
theorem insertKey_perm (k : String) (ks : List String) : (insertKey k ks).Perm (k :: ks) := by
  induction ks with
  | nil => simp [insertKey]
  | cons h t ih =>
    unfold insertKey
    split_ifs
    · exact List.Perm.refl _
    · exact (List.Perm.cons h ih).trans (List.Perm.swap k h t)

/-- The sorted keys of a map are its keys. -/
theorem Values.mem_sortedKeys (v : Values) (k : String) :
    k ∈ v.sortedKeys ↔ k ∈ v.map Prod.fst := by
  induction v with
  | nil => simp [Values.sortedKeys]
  | cons e rest ih =>
    obtain ⟨k0, vs⟩ := e
    simp only [Values.sortedKeys, List.map_cons, List.mem_cons]
    split_ifs with hmem
    · rw [ih]
      constructor
      · exact Or.inr
      · rintro (rfl | h)
        · exact (ih.mp hmem)
        · exact h
    · rw [(insertKey_perm k0 _).mem_iff, List.mem_cons, ih]

/-- The sorted keys of a map hold each key once. -/
theorem Values.sortedKeys_nodup (v : Values) : v.sortedKeys.Nodup := by
  induction v with
  | nil => simp [Values.sortedKeys]
  | cons e rest ih =>
    obtain ⟨k0, vs⟩ := e
    simp only [Values.sortedKeys]
    split_ifs with hmem
    · exact ih
    · exact (insertKey_perm k0 _).nodup_iff.mpr (List.nodup_cons.mpr ⟨hmem, ih⟩)

/-- The lookup of an absent key is empty. -/
theorem Values.get_of_not_mem (v : Values) (k : String) (h : k ∉ v.map Prod.fst) :
    v.get k = [] := by
  induction v with
  | nil => rfl
  | cons e rest ih =>
    obtain ⟨k0, vs⟩ := e
    simp only [List.map_cons, List.mem_cons, not_or] at h
    simp [Values.get, Ne.symm h.1, ih h.2]

/-- In a query string written key by key over distinct keys, the values of a key are those
written for it. -/
theorem values_flatMap (f : String → List String) (k : String) (ks : List String)
    (hnd : ks.Nodup) :
    RawQuery.values (ks.flatMap (fun k' => (f k').map (fun x => (k', x)))) k
      = if k ∈ ks then f k else [] := by
  induction ks with
  | nil => simp [RawQuery.values]
  | cons h t ih =>
    have hnd' := List.nodup_cons.mp hnd
    have ih' := ih hnd'.2
    simp only [RawQuery.values] at ih' ⊢
    rw [List.flatMap_cons, List.filter_append, List.map_append, ih']
    by_cases hk : h = k
    · subst hk
      simp [hnd'.1, List.filter_map, Function.comp_def]
    · have : k ≠ h := Ne.symm hk
      simp [hk, this, List.filter_map, Function.comp_def]

/-- The encoded query string carries for each key the values of the map, in order. -/
theorem Values.Encode_values (v : Values) (k : String) :
    RawQuery.values v.Encode k = v.get k := by
  rw [Values.Encode, values_flatMap _ _ _ v.sortedKeys_nodup]
  split_ifs with h
  · rfl
  · exact (Values.get_of_not_mem v k (fun hm => h ((Values.mem_sortedKeys v k).mpr hm))).symm

/-- The option made by `OptionQuery` appends its value to the values the query string carries
for its key and leaves the values of the other keys. -/
theorem OptionQuery_values (req : Request) (k x k' : String) :
    RawQuery.values (OptionQuery k x req).URL.RawQuery k'
      = if k = k' then RawQuery.values req.URL.RawQuery k' ++ [x]
        else RawQuery.values req.URL.RawQuery k' := by
  simp only [OptionQuery, URL.Query, Values.Encode_values, Values.get_Add, ParseQuery_get]

/-- The options of `Client.do` are applied one after the other, in the order given. -/
theorem Client.doRequest_append (c : Client) (method endpoint : String)
    (opts more : List RequestOption) (req : Request)
    (h : c.doRequest method endpoint opts = .ok req) :
    c.doRequest method endpoint (opts ++ more) = .ok (more.foldl (fun r opt => opt r) req) := by
  unfold Client.doRequest at h ⊢
  cases hnew : NewRequest method
      { BaseURL with Path := pathJoin [BaseURL.Path, endpoint] ++ "/" } with
  | error err => simp [hnew] at h
  | ok r =>
    simp only [hnew] at h ⊢
    rw [List.foldl_append]
    injection h with h
    rw [h]

/-- The options are applied in the order given, and the option made by `OptionQuery` adds its
value to the ones the query string already carries for the key: after OptionQuery(k, v1) and
then OptionQuery(k, v2) the query string carries for k the values it carried before, then
v1, then v2, and for every other key the values it carried before. -/
theorem OptionQuery_appends (req : Request) (k v1 v2 : String) :
    (∀ (c : Client) (method endpoint : String) (opts : List RequestOption) (r : Request),
      c.doRequest method endpoint opts = .ok r →
      c.doRequest method endpoint (opts ++ [OptionQuery k v1, OptionQuery k v2])
        = .ok (OptionQuery k v2 (OptionQuery k v1 r))) ∧
    RawQuery.values (OptionQuery k v2 (OptionQuery k v1 req)).URL.RawQuery k
      = RawQuery.values req.URL.RawQuery k ++ [v1, v2] ∧
    (∀ k', k' ≠ k →
      RawQuery.values (OptionQuery k v2 (OptionQuery k v1 req)).URL.RawQuery k'
        = RawQuery.values req.URL.RawQuery k') := by
  refine ⟨fun c method endpoint opts r h => ?_, ?_, fun k' hk => ?_⟩
  · exact Client.doRequest_append c method endpoint opts _ r h
  · simp [OptionQuery_values]
  · simp [OptionQuery_values, Ne.symm hk]

/-- C6 on the code: a later `OptionQuery` does not override an earlier one. After
OptionQuery(currentPage, 1) and then OptionQuery(currentPage, 2) the query string carries
both values, not the single value 2; and since `GetAllMembersOfGroup` appends one such
option per page to the options it passes on, its requests for the pages 1, 2, 3 carry the
currentPage values 1, then 1 and 2, then 1, 2 and 3, where the comment "Adding/overriding
page query param" and the claim have the one value of the page. -/
theorem GetAllMembersOfGroup_page_query_accumulates :
    RawQuery.values (OptionQuery "currentPage" "2"
        (OptionQuery "currentPage" "1" sampleRequest)).URL.RawQuery "currentPage"
      = ["1", "2"] ∧
    RawQuery.values (OptionQuery "currentPage" "2"
        (OptionQuery "currentPage" "1" sampleRequest)).URL.RawQuery "currentPage"
      ≠ ["2"] ∧
    ((GroupV2Service.mk sampleClient).GetAllMembersOfGroup sampleRuntime 5 7 []
        (scripted [.ok (sampleResponse 200 "application/json" "Rab+"),
          .ok (sampleResponse 200 "application/json" "Rcd+"),
          .ok (sampleResponse 200 "application/json" "Re")])).map
        (fun r => r.2.sent.map (fun sent => RawQuery.values sent.2.URL.RawQuery "currentPage"))
      = some [["1"], ["1", "2"], ["1", "2", "3"]] := by
  refine ⟨?_, ?_, ?_⟩
  · decide
  · decide
  · decide

/-- An option of the package leaves the method, the path and the `X-Api-Key` lines of the
request as they are. -/
theorem StdOption.preserves (o : RequestOption) (h : StdOption o) (r : Request) :
    (o r).Method = r.Method ∧ (o r).URL.Path = r.URL.Path ∧
      Header.Values (o r).Header "X-Api-Key" = Header.Values r.Header "X-Api-Key" := by
  cases h with
  | body b => exact ⟨rfl, rfl, rfl⟩
  | context ctx => exact ⟨rfl, rfl, rfl⟩
  | query key value => exact ⟨rfl, rfl, rfl⟩
  | token t =>
    refine ⟨rfl, rfl, ?_⟩
    have hne : ¬ ("Authorization" : String) = "X-Api-Key" := by decide
    simp only [OptionOAuthToken, Token.SetAuthHeader, Header.Values, Header.Set,
      List.filter_append, List.filter_filter, List.map_append]
    have hnil : List.filter (fun kv : String × String => decide (kv.1 = "X-Api-Key"))
        [("Authorization", t.Type ++ " " ++ t.AccessToken)] = [] := by
      simp [hne]
    rw [hnil, List.map_nil, List.append_nil]
    congr 1
    apply List.filter_congr
    intro kv _
    by_cases hk : kv.1 = "X-Api-Key"
    · simp [hk, Ne.symm hne]
    · simp [hk]

/-- A list of options of the package, applied in order, leaves the method, the path and the
`X-Api-Key` lines of the request as they are. -/
theorem StdOption.foldl_preserves (opts : List RequestOption) (h : ∀ o ∈ opts, StdOption o) :
    ∀ r : Request,
      (opts.foldl (fun req opt => opt req) r).Method = r.Method ∧
      (opts.foldl (fun req opt => opt req) r).URL.Path = r.URL.Path ∧
      Header.Values (opts.foldl (fun req opt => opt req) r).Header "X-Api-Key"
        = Header.Values r.Header "X-Api-Key" := by
  induction opts with
  | nil => intro r; exact ⟨rfl, rfl, rfl⟩
  | cons o rest ih =>
    intro r
    obtain ⟨h1, h2, h3⟩ := ih (fun x hx => h x (List.mem_cons_of_mem _ hx)) (o r)
    obtain ⟨g1, g2, g3⟩ := StdOption.preserves o (h o (List.mem_cons_self _ _)) r
    rw [List.foldl_cons]
    exact ⟨h1.trans g1, h2.trans g2, h3.trans g3⟩

/-- The request `Client.do` creates, before the options: the method given (GET for the empty
method), the base path joined with the endpoint and a slash, and the API key as the one
header. -/
theorem Client.doRequest_shape (c : Client) (method endpoint : String)
    (opts : List RequestOption) (req : Request)
    (hreq : c.doRequest method endpoint opts = .ok req) :
    ∃ r0 : Request, req = opts.foldl (fun req opt => opt req) r0 ∧
      r0.Method = (if method = "" then "GET" else method) ∧
      r0.URL.Path = pathJoin ["/Platform", endpoint] ++ "/" ∧
      r0.Header = [("X-Api-Key", c.apiKey)] := by
  unfold Client.doRequest at hreq
  cases hnew : NewRequest method
      { BaseURL with Path := pathJoin [BaseURL.Path, endpoint] ++ "/" } with
  | error e => simp [hnew] at hreq
  | ok r =>
    simp only [hnew, Except.ok.injEq] at hreq
    unfold NewRequest at hnew
    by_cases hv : (if method = "" then "GET" else method).data.all isTokenChar = true
    · simp only [hv, if_true, Except.ok.injEq] at hnew
      subst hnew
      exact ⟨_, hreq.symm, rfl, rfl, rfl⟩
    · simp [hv] at hnew

/-- What `Client.do` dispatches: when the request is created, it is sent with the http client
of the client, as the next request of the network. -/
theorem Client.do_sent {δ : Type} (rt : Runtime) (unmarshal : Unmarshal δ) (c : Client)
    (method endpoint : String) (dst : δ) (opts : List RequestOption) (w : World)
    (req : Request) (hreq : c.doRequest method endpoint opts = .ok req) :
    (c.do rt unmarshal method endpoint dst opts w).2.sent = w.sent ++ [(c.httpClient, req)] := by
  unfold Client.do HTTPClient.Do
  simp only [hreq]
  cases w.respond w.sent c.httpClient req <;> rfl

/-- C12: for every method, endpoint and list of options built by `OptionBody`,
`OptionContext`, `OptionQuery` and `OptionOAuthToken`, the request `Client.do` dispatches
carries the header `X-Api-Key` with exactly one value, the API key of the client. -/
theorem Client.do_api_key {δ : Type} (rt : Runtime) (unmarshal : Unmarshal δ) (c : Client)
    (method endpoint : String) (dst : δ) (opts : List RequestOption) (w : World)
    (req : Request) (hopts : ∀ o ∈ opts, StdOption o)
    (hreq : c.doRequest method endpoint opts = .ok req) :
    (c.do rt unmarshal method endpoint dst opts w).2.sent = w.sent ++ [(c.httpClient, req)] ∧
    Header.Values req.Header "X-Api-Key" = [c.apiKey] := by
  refine ⟨Client.do_sent rt unmarshal c method endpoint dst opts w req hreq, ?_⟩
  obtain ⟨r0, rfl, _, _, hhead⟩ := Client.doRequest_shape c method endpoint opts req hreq
  rw [(StdOption.foldl_preserves opts hopts r0).2.2, hhead]
  simp [Header.Values]

/-- Witness of C12: a GET with a context, a query parameter, a token and a body. -/
theorem Client.do_api_key_witness :
    ((sampleClient.do sampleRuntime sampleRuntime.UnmarshalSearchResult "GET" "/GroupV2/1/Members"
        SearchResultOfGroupMember.zero
        [OptionContext ⟨"app"⟩, OptionQuery "currentPage" "1",
          OptionOAuthToken ⟨"access", "Bearer", "fresh", 0⟩, OptionBody "{}"]
        (scripted [])).2.sent.map (fun sent => Header.Values sent.2.Header "X-Api-Key"))
      = [["key"]] := by
  have h := Client.do_api_key sampleRuntime sampleRuntime.UnmarshalSearchResult sampleClient
    "GET" "/GroupV2/1/Members" SearchResultOfGroupMember.zero
    [OptionContext ⟨"app"⟩, OptionQuery "currentPage" "1",
      OptionOAuthToken ⟨"access", "Bearer", "fresh", 0⟩, OptionBody "{}"]
    (scripted []) _
    (by
      intro o ho
      simp only [List.mem_cons, List.mem_singleton, List.not_mem_nil, or_false] at ho
      rcases ho with rfl | rfl | rfl | rfl
      · exact .context _
      · exact .query _ _
      · exact .token _
      · exact .body _)
    rfl
  rw [h.1, List.map_append, List.map_cons, List.map_nil, h.2]
  rfl

/-- C16, as the claim states it, fails: for a response with status 401 and no Content-Type
header `Client.do` returns the error of `mime.ParseMediaType`, not ErrUnautorized. -/
theorem Client.do_media_type_counterexample :
    (sampleClient.do sampleRuntime sampleRuntime.UnmarshalSearchResult "GET" "/GroupV2/1/Members"
        SearchResultOfGroupMember.zero []
        (scripted [.ok { StatusCode := 401, Header := [], Body := "<html>" }])).1
      = (SearchResultOfGroupMember.zero, some (.other "mime: no media type")) ∧
    (sampleClient.do sampleRuntime sampleRuntime.UnmarshalSearchResult "GET" "/GroupV2/1/Members"
        SearchResultOfGroupMember.zero []
        (scripted [.ok { StatusCode := 401, Header := [], Body := "<html>" }])).1.2
      ≠ some (.simple ErrUnautorized) := by
  constructor
  · rfl
  · decide

/-- C16, amended: for every response whose Content-Type header does not parse as a media type
(`mime.ParseMediaType` returns an error), `Client.do` returns that error unchanged, whatever
the status code, and leaves the destination alone. -/
theorem Client.do_media_type_error {δ : Type} (rt : Runtime) (unmarshal : Unmarshal δ)
    (c : Client) (method endpoint : String) (dst : δ) (opts : List RequestOption) (w : World)
    (req : Request) (resp : Response) (err : GoError)
    (hreq : c.doRequest method endpoint opts = .ok req)
    (hresp : w.respond w.sent c.httpClient req = .ok resp)
    (hct : rt.ParseMediaType (Header.Get resp.Header "Content-Type") = .error err) :
    (c.do rt unmarshal method endpoint dst opts w).1 = (dst, some err) := by
  simp [Client.do, HTTPClient.Do, hreq, hresp, Client.doResponse, hct]

/-- Witness of C16, amended: an empty Content-Type header with status 404. -/
theorem Client.do_media_type_error_witness :
    (sampleClient.do sampleRuntime sampleRuntime.UnmarshalSearchResult "GET" "/GroupV2/1/Members"
        SearchResultOfGroupMember.zero []
        (scripted [.ok (sampleResponse 404 "" "<html>")])).1
      = (SearchResultOfGroupMember.zero, some (.other "mime: no media type")) :=
  Client.do_media_type_error sampleRuntime sampleRuntime.UnmarshalSearchResult sampleClient "GET"
    "/GroupV2/1/Members" SearchResultOfGroupMember.zero []
    (scripted [.ok (sampleResponse 404 "" "<html>")])
    _ (sampleResponse 404 "" "<html>") (.other "mime: no media type")
    rfl rfl rfl

/-- A decimal digit is neither a slash nor a dot. -/
theorem digitChar_plain (n : Nat) (h : n < 10) :
    Nat.digitChar n ≠ '/' ∧ Nat.digitChar n ≠ '.' := by
  interval_cases n <;> decide

/-- The decimal digits of a number hold neither a slash nor a dot. -/
theorem toDigitsCore_plain (fuel : Nat) :
    ∀ (n : Nat) (acc : List Char), (∀ c ∈ acc, c ≠ '/' ∧ c ≠ '.') →
      ∀ c ∈ Nat.toDigitsCore 10 fuel n acc, c ≠ '/' ∧ c ≠ '.' := by
  induction fuel with
  | zero => intro n acc hacc c hc; exact hacc c (by simpa [Nat.toDigitsCore] using hc)
  | succ fuel ih =>
    intro n acc hacc c hc
    have hcons : ∀ x ∈ Nat.digitChar (n % 10) :: acc, x ≠ '/' ∧ x ≠ '.' := by
      intro x hx
      rcases List.mem_cons.mp hx with rfl | hx
      · exact digitChar_plain _ (Nat.mod_lt _ (by decide))
      · exact hacc x hx
    simp only [Nat.toDigitsCore] at hc
    split_ifs at hc
    · exact hcons c hc
    · exact ih _ _ hcons c hc

/-- The decimal digits of a number are not empty. -/
theorem toDigitsCore_ne_nil (fuel : Nat) :
    ∀ (n : Nat) (acc : List Char), (fuel ≠ 0 ∨ acc ≠ []) →
      Nat.toDigitsCore 10 fuel n acc ≠ [] := by
  induction fuel with
  | zero => intro n acc h; rcases h with h | h; exact absurd rfl h; simpa [Nat.toDigitsCore] using h
  | succ fuel ih =>
    intro n acc _
    simp only [Nat.toDigitsCore]
    split_ifs
    · simp
    · exact ih _ _ (Or.inr (by simp))

/-- The rendering `%d` of an integer is not empty and holds neither a slash nor a dot. -/
theorem toString_int_plain (gid : Int) :
    (toString gid).data ≠ [] ∧ ∀ c ∈ (toString gid).data, c ≠ '/' ∧ c ≠ '.' := by
  cases gid with
  | ofNat m =>
    show (Nat.repr m).data ≠ [] ∧ ∀ c ∈ (Nat.repr m).data, c ≠ '/' ∧ c ≠ '.'
    simp only [Nat.repr, List.asString, Nat.toDigits]
    exact ⟨toDigitsCore_ne_nil _ _ _ (Or.inl (by omega)),
      toDigitsCore_plain _ _ _ (by simp)⟩
  | negSucc m =>
    show ("-" ++ Nat.repr (m + 1)).data ≠ [] ∧
      ∀ c ∈ ("-" ++ Nat.repr (m + 1)).data, c ≠ '/' ∧ c ≠ '.'
    simp only [Nat.repr, List.asString, Nat.toDigits, String.data_append]
    refine ⟨by simp, ?_⟩
    intro c hc
    rcases List.mem_append.mp hc with h | h
    · have : c = '-' := by simpa using h
      subst this; decide
    · exact toDigitsCore_plain _ _ _ (by simp) c h

/-- A text without slash is one piece. -/
theorem splitSlash_plain (a : List Char) (ha : ∀ c ∈ a, c ≠ '/') : splitSlash a = [a] := by
  induction a with
  | nil => rfl
  | cons c cs ih =>
    have hc : c ≠ '/' := ha c (List.mem_cons_self _ _)
    rw [splitSlash, if_neg hc, ih (fun x hx => ha x (List.mem_cons_of_mem _ hx))]

/-- The pieces of a text are the text before the first slash and the pieces of the rest. -/
theorem splitSlash_append (a b : List Char) (ha : ∀ c ∈ a, c ≠ '/') :
    splitSlash (a ++ '/' :: b) = a :: splitSlash b := by
  induction a with
  | nil => simp [splitSlash]
  | cons c cs ih =>
    have hc : c ≠ '/' := ha c (List.mem_cons_self _ _)
    rw [List.cons_append, splitSlash, if_neg hc, ih (fun x hx => ha x (List.mem_cons_of_mem _ hx))]


/-- Cleaning a rooted path: a slash, then the kept elements joined by slashes. -/
theorem pathClean_rooted (p : String) (segs : List (List Char))
    (hroot : p.data.head? = some '/')
    (hsegs : (splitSlash p.data).foldl (cleanStep true) [] = segs) :
    pathClean p = "/" ++ String.mk (List.intercalate ['/'] segs) := by
  have hne : p.data ≠ [] := by
    intro h; rw [h] at hroot; simp at hroot
  unfold pathClean
  simp only [hne, if_false, hroot, hsegs, decide_True, if_true]

/-- An element that is not empty and holds no dot is kept by `path.Clean`. -/
theorem cleanStep_plain (out : List (List Char)) (seg : List Char) (hne : seg ≠ [])
    (hplain : ∀ c ∈ seg, c ≠ '/' ∧ c ≠ '.') : cleanStep true out seg = out ++ [seg] := by
  have h1 : seg ≠ ['.'] := by
    intro h; exact (hplain '.' (by rw [h]; simp)).2 rfl
  have h2 : seg ≠ ['.', '.'] := by
    intro h; exact (hplain '.' (by rw [h]; simp)).2 rfl
  simp [cleanStep, hne, h1, h2]

/-- The path of the members endpoint of a group whose id is rendered as `d`. -/
theorem pathJoin_group (d : String) (hne : d.data ≠ [])
    (hplain : ∀ c ∈ d.data, c ≠ '/' ∧ c ≠ '.') :
    pathJoin ["/Platform", pathJoin ["/GroupV2", "/" ++ d ++ "/Members"]] ++ "/"
      = "/Platform/GroupV2/" ++ d ++ "/Members/" := by
  have hslash : ∀ c ∈ d.data, c ≠ '/' := fun c hc => (hplain c hc).1
  have hmem : ∀ c ∈ ['M', 'e', 'm', 'b', 'e', 'r', 's'], c ≠ '/' := by decide
  have hgrp : ∀ c ∈ ['G', 'r', 'o', 'u', 'p', 'V', '2'], c ≠ '/' := by decide
  have hplat : ∀ c ∈ ['P', 'l', 'a', 't', 'f', 'o', 'r', 'm'], c ≠ '/' := by decide
  have hnil : ∀ c ∈ ([] : List Char), c ≠ '/' := by simp
  have e1 : ("/" ++ d ++ "/Members" : String) ≠ "" := by
    intro h
    have := congrArg String.data h
    simp at this
  have inner : pathJoin ["/GroupV2", "/" ++ d ++ "/Members"] = "/GroupV2/" ++ d ++ "/Members" := by
    have hdata : (String.intercalate "/" ["/GroupV2", "/" ++ d ++ "/Members"]).data
        = [] ++ '/' :: (['G', 'r', 'o', 'u', 'p', 'V', '2'] ++ '/' :: ([] ++ '/' ::
            (d.data ++ '/' :: ['M', 'e', 'm', 'b', 'e', 'r', 's']))) := by
      simp [String.intercalate, String.intercalate.go]
    have hj : pathJoin ["/GroupV2", "/" ++ d ++ "/Members"]
        = pathClean (String.intercalate "/" ["/GroupV2", "/" ++ d ++ "/Members"]) := by
      simp [pathJoin, e1]
    rw [hj, pathClean_rooted _ [['G', 'r', 'o', 'u', 'p', 'V', '2'], d.data,
      ['M', 'e', 'm', 'b', 'e', 'r', 's']]]
    · apply String.ext
      simp [List.intercalate]
    · rw [hdata]; rfl
    · rw [hdata, splitSlash_append _ _ hnil, splitSlash_append _ _ hgrp,
        splitSlash_append _ _ hnil, splitSlash_append _ _ hslash, splitSlash_plain _ hmem]
      simp only [List.foldl_cons, List.foldl_nil]
      rw [show cleanStep true [] [] = [] from rfl,
        show cleanStep true [] ['G', 'r', 'o', 'u', 'p', 'V', '2']
          = [['G', 'r', 'o', 'u', 'p', 'V', '2']] from rfl,
        show cleanStep true [['G', 'r', 'o', 'u', 'p', 'V', '2']] []
          = [['G', 'r', 'o', 'u', 'p', 'V', '2']] from rfl,
        cleanStep_plain _ _ hne hplain]
      rfl
  have e2 : ("/GroupV2/" ++ d ++ "/Members" : String) ≠ "" := by
    intro h
    have := congrArg String.data h
    simp at this
  have hdata : (String.intercalate "/" ["/Platform", "/GroupV2/" ++ d ++ "/Members"]).data
      = [] ++ '/' :: (['P', 'l', 'a', 't', 'f', 'o', 'r', 'm'] ++ '/' :: ([] ++ '/' ::
          (['G', 'r', 'o', 'u', 'p', 'V', '2'] ++ '/' ::
            (d.data ++ '/' :: ['M', 'e', 'm', 'b', 'e', 'r', 's'])))) := by
    simp [String.intercalate, String.intercalate.go]
  have hj : pathJoin ["/Platform", "/GroupV2/" ++ d ++ "/Members"]
      = pathClean (String.intercalate "/" ["/Platform", "/GroupV2/" ++ d ++ "/Members"]) := by
    simp [pathJoin, e2]
  rw [inner, hj, pathClean_rooted _ [['P', 'l', 'a', 't', 'f', 'o', 'r', 'm'],
    ['G', 'r', 'o', 'u', 'p', 'V', '2'], d.data, ['M', 'e', 'm', 'b', 'e', 'r', 's']]]
  · apply String.ext
    simp [List.intercalate]
  · rw [hdata]; rfl
  · rw [hdata, splitSlash_append _ _ hnil, splitSlash_append _ _ hplat,
      splitSlash_append _ _ hnil, splitSlash_append _ _ hgrp, splitSlash_append _ _ hslash,
      splitSlash_plain _ hmem]
    simp only [List.foldl_cons, List.foldl_nil]
    rw [show cleanStep true [] [] = [] from rfl,
      show cleanStep true [] ['P', 'l', 'a', 't', 'f', 'o', 'r', 'm']
        = [['P', 'l', 'a', 't', 'f', 'o', 'r', 'm']] from rfl,
      show cleanStep true [['P', 'l', 'a', 't', 'f', 'o', 'r', 'm']] []
        = [['P', 'l', 'a', 't', 'f', 'o', 'r', 'm']] from rfl,
      show cleanStep true [['P', 'l', 'a', 't', 'f', 'o', 'r', 'm']]
          ['G', 'r', 'o', 'u', 'p', 'V', '2']
        = [['P', 'l', 'a', 't', 'f', 'o', 'r', 'm'], ['G', 'r', 'o', 'u', 'p', 'V', '2']]
        from rfl,
      cleanStep_plain _ _ hne hplain]
    rfl

/-- The path of the memberships endpoint of the current user. -/
theorem pathJoin_user :
    pathJoin ["/Platform", pathJoin ["/User", "/GetMembershipsForCurrentUser"]] ++ "/"
      = "/Platform/User/GetMembershipsForCurrentUser/" := by
  decide

/-- C13: the request of a service call has the path made of the base path `/Platform`, the
prefix of the service and the path of the operation, with one slash at the end:
`GetMembersOfGroup(gid)` sends a GET to `/Platform/GroupV2/<gid>/Members/` for every gid and
`GetMembershipDataForCurrentUser` a GET to `/Platform/User/GetMembershipsForCurrentUser/`,
with any options of the package. -/
theorem service_request_paths (rt : Runtime) (gs : GroupV2Service) (us : UserService)
    (gid : Int) (opts : List RequestOption) (w : World) (hopts : ∀ o ∈ opts, StdOption o) :
    (∃ req, (gs.GetMembersOfGroup rt gid opts w).2.sent = w.sent ++ [(gs.c.httpClient, req)] ∧
      req.Method = "GET" ∧
      req.URL.Path = "/Platform/GroupV2/" ++ toString gid ++ "/Members/") ∧
    (∃ req, (us.GetMembershipDataForCurrentUser rt opts w).2.sent
        = w.sent ++ [(us.c.httpClient, req)] ∧
      req.Method = "GET" ∧
      req.URL.Path = "/Platform/User/GetMembershipsForCurrentUser/") := by
  constructor
  · obtain ⟨req, hreq⟩ := Client.doRequest_GET gs.c
      (pathJoin ["/GroupV2", "/" ++ toString gid ++ "/Members"]) opts
    obtain ⟨r0, rfl, hm, hp, _⟩ := Client.doRequest_shape gs.c "GET" _ opts req hreq
    obtain ⟨g1, g2, _⟩ := StdOption.foldl_preserves opts hopts r0
    refine ⟨_, Client.do_sent rt rt.UnmarshalSearchResult gs.c "GET" _
      SearchResultOfGroupMember.zero opts w _ hreq, ?_, ?_⟩
    · rw [g1, hm]; rfl
    · rw [g2, hp]
      exact pathJoin_group (toString gid) (toString_int_plain gid).1 (toString_int_plain gid).2
  · obtain ⟨req, hreq⟩ := Client.doRequest_GET us.c
      (pathJoin ["/User", "/GetMembershipsForCurrentUser"]) opts
    obtain ⟨r0, rfl, hm, hp, _⟩ := Client.doRequest_shape us.c "GET" _ opts req hreq
    obtain ⟨g1, g2, _⟩ := StdOption.foldl_preserves opts hopts r0
    refine ⟨_, Client.do_sent rt rt.UnmarshalMembershipData us.c "GET" _
      UserMembershipData.zero opts w _ hreq, ?_, ?_⟩
    · rw [g1, hm]; rfl
    · rw [g2, hp]
      exact pathJoin_user

/-- Witness of C13: the members of group 7, page 1. -/
theorem service_request_paths_witness :
    ∃ req, ((GroupV2Service.mk sampleClient).GetMembersOfGroup sampleRuntime 7
        [OptionQuery "currentPage" "1"] (scripted [])).2.sent
        = (scripted []).sent ++ [(sampleClient.httpClient, req)] ∧
      req.Method = "GET" ∧ req.URL.Path = "/Platform/GroupV2/7/Members/" :=
  (service_request_paths sampleRuntime (GroupV2Service.mk sampleClient)
    (UserService.mk sampleClient) 7 [OptionQuery "currentPage" "1"] (scripted [])
    (by
      intro o ho
      obtain rfl : o = OptionQuery "currentPage" "1" := by simpa using ho
      exact .query _ _)).1

/-- A call of `GetMembershipDataForCurrentUser` is dispatched with the http client of the
client the service refers to. -/
theorem UserService.call_dispatched_with (rt : Runtime) (us : UserService)
    (opts : List RequestOption) (w : World) :
    (us.GetMembershipDataForCurrentUser rt opts w).2.dispatchedWith
      = w.dispatchedWith ++ [us.c.httpClient] := by
  obtain ⟨req, hreq⟩ := Client.doRequest_GET us.c
    (pathJoin ["/User", "/GetMembershipsForCurrentUser"]) opts
  have hsent := Client.do_sent rt rt.UnmarshalMembershipData us.c "GET" _
    UserMembershipData.zero opts w req hreq
  simp only [World.dispatchedWith, UserService.GetMembershipDataForCurrentUser,
    UserService.do, hsent, List.map_append, List.map_cons, List.map_nil]

/-- A call of `GetMembersOfGroup` is dispatched with the http client of the client the
service refers to. -/
theorem GroupV2Service.page_dispatched_with (rt : Runtime) (gs : GroupV2Service) (gid : Int)
    (opts : List RequestOption) (w : World) :
    (gs.GetMembersOfGroup rt gid opts w).2.dispatchedWith
      = w.dispatchedWith ++ [gs.c.httpClient] := by
  obtain ⟨req, hreq⟩ := Client.doRequest_GET gs.c
    (pathJoin ["/GroupV2", "/" ++ toString gid ++ "/Members"]) opts
  have hsent := Client.do_sent rt rt.UnmarshalSearchResult gs.c "GET" _
    SearchResultOfGroupMember.zero opts w req hreq
  simp only [World.dispatchedWith, GroupV2Service.GetMembersOfGroup,
    GroupV2Service.do, hsent, List.map_append, List.map_cons, List.map_nil]

/-- C15 on the code: for a client made by `NewClient` with OAuth credentials set and every
token `t`, the copy returned by `WithOAuth2Token(t)` holds the http client authorized by `t`,
but its `UserService` and `GroupV2Service` still refer to the original client, so the calls
made through them are dispatched with `http.DefaultClient`, not with the authorized
client. -/
theorem WithOAuth2Token_services_use_original (apiKey clientID clientSecret : String)
    (t : Token) (rt : Runtime) (gid : Int) (opts : List RequestOption) (w : World) :
    ∃ (copy : Nat) (h : Heap) (conf : OAuth2Config) (us : UserService) (gs : GroupV2Service),
      (SetOAuthCredentials (NewClient apiKey []).1 clientID clientSecret
          (NewClient apiKey []).2).bind (fun r => WithOAuth2Token r.1 t r.2) = some (copy, h) ∧
      (h[copy]?).map (fun obj => obj.fields.httpClient) = some (.authorized (some conf) t) ∧
      h.UserService copy = some us ∧
      h.GroupV2Service copy = some gs ∧
      (us.GetMembershipDataForCurrentUser rt opts w).2.dispatchedWith
        = w.dispatchedWith ++ [.DefaultClient] ∧
      (gs.GetMembersOfGroup rt gid opts w).2.dispatchedWith
        = w.dispatchedWith ++ [.DefaultClient] := by
  refine ⟨1, _, _, _, _, rfl, rfl, rfl, rfl, ?_, ?_⟩
  · rw [UserService.call_dispatched_with]; rfl
  · rw [GroupV2Service.page_dispatched_with]; rfl

end destiny2

namespace app

open destiny2

/-- The last element of a list with a non-empty tail is the last element of the tail. -/
theorem getLast?_cons_of_ne_nil {α : Type} (x : α) (l : List α) (h : l ≠ []) :
    (x :: l).getLast? = l.getLast? := by
  cases l with
  | nil => exact absurd rfl h
  | cons y t => exact List.getLast?_cons_cons

/-- The inner loop of `scheduleEvery` from index `i` on: the errors `tr` returned by the
functions it calls and the states `sts` they run through. The calls are recorded with
consecutive indices from `i` and the shared context; the j-th call is the j-th function of
the list, applied to the state the call before it left; no call but the last returned a
cancelled error; and when the loop stops before the end of the list, the last call did. -/
theorem App.scheduleEvery.runJobs_spec {σ : Type} (a : App) (fns : List (Job σ)) :
    ∀ (i : Nat) (s : TickState σ), ∃ (tr : List (Option GoError)) (sts : List σ),
      (App.scheduleEvery.runJobs a fns i s).invoked
        = s.invoked ++ (tr.enumFrom i).map (fun ie => (ie.1, a.ctx, ie.2)) ∧
      tr.length ≤ fns.length ∧
      sts.length = tr.length + 1 ∧
      sts.head? = some s.state ∧
      sts.getLast? = some (App.scheduleEvery.runJobs a fns i s).state ∧
      (∀ j fn st st' e, fns[j]? = some fn → sts[j]? = some st → sts[j + 1]? = some st' →
        tr[j]? = some e → fn a.ctx st = (e, st')) ∧
      (∀ j e, j + 1 < tr.length → tr[j]? = some (some e) → e.Is .canceled = false) ∧
      (tr.length < fns.length →
        ∃ e, tr.getLast? = some (some e) ∧ e.Is .canceled = true) := by
  induction fns with
  | nil =>
    intro i s
    exact ⟨[], [s.state], by simp [App.scheduleEvery.runJobs], by simp, by simp, by simp,
      by simp [App.scheduleEvery.runJobs], by simp, by simp, by simp⟩
  | cons fn fns ih =>
    intro i s
    rcases hfn : fn a.ctx s.state with ⟨err, st⟩
    have step : ∀ (s1 : TickState σ), s1.state = st →
        s1.invoked = s.invoked ++ [(i, a.ctx, err)] →
        App.scheduleEvery.runJobs a (fn :: fns) i s = App.scheduleEvery.runJobs a fns (i + 1) s1 →
        (∀ e, err = some e → e.Is .canceled = false) →
        ∃ (tr : List (Option GoError)) (sts : List σ),
          (App.scheduleEvery.runJobs a (fn :: fns) i s).invoked
            = s.invoked ++ (tr.enumFrom i).map (fun ie => (ie.1, a.ctx, ie.2)) ∧
          tr.length ≤ (fn :: fns).length ∧
          sts.length = tr.length + 1 ∧
          sts.head? = some s.state ∧
          sts.getLast? = some (App.scheduleEvery.runJobs a (fn :: fns) i s).state ∧
          (∀ j f st st' e, (fn :: fns)[j]? = some f → sts[j]? = some st →
            sts[j + 1]? = some st' → tr[j]? = some e → f a.ctx st = (e, st')) ∧
          (∀ j e, j + 1 < tr.length → tr[j]? = some (some e) → e.Is .canceled = false) ∧
          (tr.length < (fn :: fns).length →
            ∃ e, tr.getLast? = some (some e) ∧ e.Is .canceled = true) := by
      intro s1 hst hinv hrun hnc
      obtain ⟨tr, sts, h1, h2, h3, h4, h5, h6, h7, h8⟩ := ih (i + 1) s1
      have hsts : sts ≠ [] := by
        intro h; rw [h] at h3; simp at h3
      refine ⟨err :: tr, s.state :: sts, ?_, ?_, ?_, ?_, ?_, ?_, ?_, ?_⟩
      · rw [hrun, h1, hinv]; simp [List.enumFrom_cons]
      · simp only [List.length_cons]; omega
      · simp only [List.length_cons]; omega
      · simp
      · rw [hrun, ← h5, getLast?_cons_of_ne_nil _ _ hsts]
      · intro j f st0 st1 e hf hs0 hs1 he
        cases j with
        | zero =>
          simp only [List.getElem?_cons_zero, List.getElem?_cons_succ,
            Option.some.injEq] at hf hs0 hs1 he
          subst hf hs0 he
          have : sts.head? = some st1 := by rw [← hs1]; cases sts <;> simp
          rw [h4, hst] at this
          rw [hfn, ← Option.some.inj this]
        | succ j =>
          simp only [List.getElem?_cons_succ] at hf hs0 hs1 he
          exact h6 j f st0 st1 e hf hs0 hs1 he
      · intro j e hj he
        cases j with
        | zero =>
          simp only [List.getElem?_cons_zero, Option.some.injEq] at he
          exact hnc e he
        | succ j =>
          simp only [List.getElem?_cons_succ] at he
          simp only [List.length_cons] at hj
          exact h7 j e (by omega) he
      · intro hlt
        simp only [List.length_cons] at hlt
        obtain ⟨e, he, hc⟩ := h8 (by omega)
        have htr : tr ≠ [] := by intro h; rw [h] at he; simp at he
        exact ⟨e, by rw [← he]; exact getLast?_cons_of_ne_nil _ _ htr, hc⟩
    cases err with
    | none =>
      exact step { state := st, stdout := s.stdout, invoked := s.invoked ++ [(i, a.ctx, none)] }
        rfl rfl (by rw [App.scheduleEvery.runJobs, hfn]) (by simp)
    | some e =>
      by_cases hc : e.Is .canceled = true
      · refine ⟨[some e], [s.state, st], ?_, by simp, by simp, by simp, ?_, ?_, by simp, ?_⟩
        · rw [App.scheduleEvery.runJobs, hfn]; simp [hc, List.enumFrom]
        · rw [App.scheduleEvery.runJobs, hfn]; simp [hc]
        · intro j f st0 st1 e' hf hs0 hs1 he
          cases j with
          | zero =>
            simp only [List.getElem?_cons_zero, List.getElem?_cons_succ,
              Option.some.injEq] at hf hs0 hs1 he
            subst hf hs0 hs1 he
            exact hfn
          | succ j => simp at he
        · intro _; exact ⟨e, by simp, hc⟩
      · exact step
          { state := st,
            stdout := s.stdout ++ ["Errored running scheduled job: " ++ e.Error ++ "\n"],
            invoked := s.invoked ++ [(i, a.ctx, some e)] }
          rfl rfl (by rw [App.scheduleEvery.runJobs, hfn]; simp [hc])
          (by intro e' he'; cases he'; simpa using hc)

/-- C7: within one tick of `scheduleEvery` the functions are invoked in list order from the
first one, each with the shared context and on the state left by the one before; no
invoked function but the last returned an error that is or wraps `context.Canceled`, and
the tick stops before the end of the list only after a function that did. So the functions
invoked are exactly those up to and including the first that returns a cancelled error, or
all of them when none does, and any other error does not keep the next one from running. -/
theorem App.scheduleEvery.tick_invoked {σ : Type} (a : App) (fns : List (Job σ))
    (s : TickState σ) :
    ∃ (tr : List (Option GoError)) (sts : List σ),
      (App.scheduleEvery.tick a fns s).invoked
        = s.invoked ++ (tr.enumFrom 0).map (fun ie => (ie.1, a.ctx, ie.2)) ∧
      tr.length ≤ fns.length ∧
      sts.length = tr.length + 1 ∧
      sts.head? = some s.state ∧
      sts.getLast? = some (App.scheduleEvery.tick a fns s).state ∧
      (∀ j fn st st' e, fns[j]? = some fn → sts[j]? = some st → sts[j + 1]? = some st' →
        tr[j]? = some e → fn a.ctx st = (e, st')) ∧
      (∀ j e, j + 1 < tr.length → tr[j]? = some (some e) → e.Is .canceled = false) ∧
      (tr.length < fns.length → ∃ e, tr.getLast? = some (some e) ∧ e.Is .canceled = true) :=
  App.scheduleEvery.runJobs_spec a fns 0 s

/-- The scan issues nothing when no entry has its membership type as cross-save override. -/
theorem App.SetNicknames.findActive_none (env : Collaborators) (site : Site) (guild : Guild)
    (member : Member) (l : List GroupUserInfoCard)
    (h : ∀ d ∈ l, d.MembershipType ≠ d.CrossSaveOverride) :
    App.SetNicknames.findActive env site guild member l = [] := by
  induction l with
  | nil => rfl
  | cons d rest ih =>
    have hd : ¬ d.CrossSaveOverride = d.MembershipType :=
      fun hEq => h d (List.mem_cons_self _ _) hEq.symm
    rw [App.SetNicknames.findActive, if_neg hd]
    exact ih (fun x hx => h x (List.mem_cons_of_mem _ hx))

/-- The scan issues exactly one rename, to the display name of the first entry that has its
membership type as cross-save override. -/
theorem App.SetNicknames.findActive_first (env : Collaborators) (site : Site) (guild : Guild)
    (member : Member) (pre : List GroupUserInfoCard) (d : GroupUserInfoCard)
    (post : List GroupUserInfoCard)
    (hpre : ∀ x ∈ pre, x.MembershipType ≠ x.CrossSaveOverride)
    (hd : d.MembershipType = d.CrossSaveOverride) :
    (App.SetNicknames.findActive env site guild member (pre ++ d :: post)).filter
        Event.isRename
      = [.rename guild.ID member.User.ID d.DisplayName] := by
  induction pre with
  | nil =>
    rw [List.nil_append, App.SetNicknames.findActive, if_pos hd.symm]
    cases env.GuildMemberNickname site guild.ID member.User.ID d.DisplayName <;>
      simp [Event.isRename]
  | cons x rest ih =>
    have hx : ¬ x.CrossSaveOverride = x.MembershipType :=
      fun hEq => hpre x (List.mem_cons_self _ _) hEq.symm
    rw [List.cons_append, App.SetNicknames.findActive, if_neg hx]
    exact ih (fun y hy => hpre y (List.mem_cons_of_mem _ hy))

/-- The scan looks up no account. -/
theorem App.SetNicknames.findActive_started (env : Collaborators) (site : Site) (guild : Guild)
    (member : Member) (l : List GroupUserInfoCard) :
    (App.SetNicknames.findActive env site guild member l).filterMap Event.startedMember
      = [] := by
  induction l with
  | nil => rfl
  | cons d rest ih =>
    rw [App.SetNicknames.findActive]
    split_ifs
    · cases env.GuildMemberNickname site guild.ID member.User.ID d.DisplayName <;>
        simp [Event.startedMember]
    · exact ih

/-- The loop body when the account lookup fails. -/
theorem App.SetNicknames.forMember_lookup_error (a : App) (env : Collaborators) (site : Site)
    (guild : Guild) (member : Member) (err : GoError)
    (hget : env.GetUserByID site (ParseUint member.User.ID).1 = .error err) :
    App.SetNicknames.forMember a env site guild member
      = if err.Is .noRows then [.getUser (ParseUint member.User.ID).1]
        else [.getUser (ParseUint member.User.ID).1,
          .printf ("Error getting user from database: " ++ err.Error ++ "\n")] := by
  simp only [App.SetNicknames.forMember, hget]

/-- The loop body when the token refresh fails. -/
theorem App.SetNicknames.forMember_refresh_error (a : App) (env : Collaborators) (site : Site)
    (guild : Guild) (member : Member) (user : User) (err : GoError)
    (hget : env.GetUserByID site (ParseUint member.User.ID).1 = .ok user)
    (href : env.RefreshToken site (GetOAuthConfig a.d2Client) user.Token = .error err) :
    App.SetNicknames.forMember a env site guild member
      = [.getUser (ParseUint member.User.ID).1, .refresh user.Token,
          .printf ("Failed to refresh token for user " ++ Char.toString (Char.ofNat 39)
            ++ toString user.ID ++ Char.toString (Char.ofNat 39) ++ ": " ++ err.Error
            ++ "\n")] := by
  simp only [App.SetNicknames.forMember, hget, href]

/-- The loop body when the API call fails. -/
theorem App.SetNicknames.forMember_api_error (a : App) (env : Collaborators) (site : Site)
    (guild : Guild) (member : Member) (user : User) (tNew : Token)
    (dUser : UserMembershipData) (err : GoError)
    (hget : env.GetUserByID site (ParseUint member.User.ID).1 = .ok user)
    (href : env.RefreshToken site (GetOAuthConfig a.d2Client) user.Token = .ok tNew)
    (hapi : (a.UserService.GetMembershipDataForCurrentUser env.rt [OptionOAuthToken tNew]
      (env.network site)).1 = (dUser, some err)) :
    App.SetNicknames.forMember a env site guild member
      = [.getUser (ParseUint member.User.ID).1, .refresh user.Token, .getMemberships tNew,
          .println dUser, .printf ("Error getting user data: " ++ err.Error ++ "\n")] := by
  simp only [App.SetNicknames.forMember, hget, href, hapi]

/-- The loop body when the API call succeeds. -/
theorem App.SetNicknames.forMember_api_ok (a : App) (env : Collaborators) (site : Site)
    (guild : Guild) (member : Member) (user : User) (tNew : Token)
    (dUser : UserMembershipData)
    (hget : env.GetUserByID site (ParseUint member.User.ID).1 = .ok user)
    (href : env.RefreshToken site (GetOAuthConfig a.d2Client) user.Token = .ok tNew)
    (hapi : (a.UserService.GetMembershipDataForCurrentUser env.rt [OptionOAuthToken tNew]
      (env.network site)).1 = (dUser, none)) :
    App.SetNicknames.forMember a env site guild member
      = [.getUser (ParseUint member.User.ID).1, .refresh user.Token, .getMemberships tNew,
          .println dUser]
        ++ App.SetNicknames.findActive env site guild member dUser.DestinyMemberships := by
  simp only [App.SetNicknames.forMember, hget, href, hapi]

/-- The loop body looks up the account of its member once, whatever happens afterwards. -/
theorem App.SetNicknames.forMember_started (a : App) (env : Collaborators) (site : Site)
    (guild : Guild) (member : Member) :
    (App.SetNicknames.forMember a env site guild member).filterMap Event.startedMember
      = [(ParseUint member.User.ID).1] := by
  cases hget : env.GetUserByID site (ParseUint member.User.ID).1 with
  | error err =>
    rw [App.SetNicknames.forMember_lookup_error a env site guild member err hget]
    split_ifs <;> simp [Event.startedMember]
  | ok user =>
    cases href : env.RefreshToken site (GetOAuthConfig a.d2Client) user.Token with
    | error err =>
      rw [App.SetNicknames.forMember_refresh_error a env site guild member user err hget href]
      simp [Event.startedMember]
    | ok tNew =>
      rcases hapi : (a.UserService.GetMembershipDataForCurrentUser env.rt
          [OptionOAuthToken tNew] (env.network site)).1 with ⟨dUser, _ | err⟩
      · rw [App.SetNicknames.forMember_api_ok a env site guild member user tNew dUser hget
          href hapi]
        simp [Event.startedMember, App.SetNicknames.findActive_started]
      · rw [App.SetNicknames.forMember_api_error a env site guild member user tNew dUser err
          hget href hapi]
        simp [Event.startedMember]

/-- The goroutine of a guild looks up the accounts of its members once each, in order. -/
theorem App.SetNicknames.setNicksForGuild_started (a : App) (env : Collaborators) (g : Nat)
    (guild : Guild) (members : List Member) :
    ∀ j, (App.SetNicknames.setNicksForGuild a env g guild members j).filterMap
        Event.startedMember
      = members.map (fun m => (ParseUint m.User.ID).1) := by
  induction members with
  | nil => intro j; rfl
  | cons m rest ih =>
    intro j
    rw [App.SetNicknames.setNicksForGuild, List.filterMap_append,
      App.SetNicknames.forMember_started, ih]
    rfl

/-- Every goroutine looks up the accounts of the members of its guild once each, in order. -/
theorem App.SetNicknames.goroutines_started (a : App) (env : Collaborators)
    (guilds : List Guild) :
    ∀ g, (App.SetNicknames.goroutines a env guilds g).map
        (fun tr => tr.filterMap Event.startedMember)
      = guilds.map (fun guild => guild.Members.map (fun m => (ParseUint m.User.ID).1)) := by
  induction guilds with
  | nil => intro g; rfl
  | cons guild rest ih =>
    intro g
    rw [App.SetNicknames.goroutines, List.map_cons, List.map_cons,
      App.SetNicknames.setNicksForGuild_started, ih]

/-- C8: for the membership entries the API call returns for a member, the handling of the
member issues no rename when no entry has its membership type equal to its cross-save
override, and otherwise exactly one rename, of this member in this guild, to the display
name of the first such entry in list order. -/
theorem App.SetNicknames.rename_active (a : App) (env : Collaborators) (site : Site)
    (guild : Guild) (member : Member) (user : User) (tNew : Token)
    (dUser : UserMembershipData)
    (hget : env.GetUserByID site (ParseUint member.User.ID).1 = .ok user)
    (href : env.RefreshToken site (GetOAuthConfig a.d2Client) user.Token = .ok tNew)
    (hapi : (a.UserService.GetMembershipDataForCurrentUser env.rt [OptionOAuthToken tNew]
      (env.network site)).1 = (dUser, none)) :
    ((∀ d ∈ dUser.DestinyMemberships, d.MembershipType ≠ d.CrossSaveOverride) →
      (App.SetNicknames.forMember a env site guild member).filter Event.isRename = []) ∧
    (∀ pre d post, dUser.DestinyMemberships = pre ++ d :: post →
      (∀ x ∈ pre, x.MembershipType ≠ x.CrossSaveOverride) →
      d.MembershipType = d.CrossSaveOverride →
      (App.SetNicknames.forMember a env site guild member).filter Event.isRename
        = [.rename guild.ID member.User.ID d.DisplayName]) := by
  have hbody := App.SetNicknames.forMember_api_ok a env site guild member user tNew dUser hget
    href hapi
  constructor
  · intro hnone
    rw [hbody, App.SetNicknames.findActive_none env site guild member _ hnone]
    simp [Event.isRename]
  · intro pre d post hsplit hpre hd
    rw [hbody, List.filter_append, hsplit,
      App.SetNicknames.findActive_first env site guild member pre d post hpre hd]
    simp [Event.isRename]

/-- Witness of C8: the API returns the entries a (inactive), B (active), c (inactive) for
member 1 of the sample guild; the one rename is to B. -/
theorem App.SetNicknames.rename_active_witness :
    (App.SetNicknames.forMember sampleApp sampleCollaborators ⟨0, 1⟩ sampleGuild
        ⟨⟨"1"⟩, "one"⟩).filter Event.isRename
      = [.rename "g" "1" "B"] :=
  (App.SetNicknames.rename_active sampleApp sampleCollaborators ⟨0, 1⟩ sampleGuild
    ⟨⟨"1"⟩, "one"⟩ (sampleUser 1) (sampleUser 1).Token
    { DestinyMemberships := [sampleCard 1 0 "a", sampleCard 3 3 "B", sampleCard 1 0 "c"],
      BungieNetUser := UserMembershipData.zero.BungieNetUser }
    rfl rfl rfl).2 [sampleCard 1 0 "a"] (sampleCard 3 3 "B") [sampleCard 1 0 "c"] rfl
    (by decide) (by decide)

/-- C9: for a member whose account lookup returns an error that is `sql.ErrNoRows`, the
handling of the member consists of the lookup alone (no token refresh, no API call, no
rename, no line written), and the goroutine goes on with the next member. -/
theorem App.SetNicknames.no_linked_account (a : App) (env : Collaborators) (g j : Nat)
    (guild : Guild) (member : Member) (rest : List Member) (err : GoError)
    (hget : env.GetUserByID ⟨g, j⟩ (ParseUint member.User.ID).1 = .error err)
    (hno : err.Is .noRows = true) :
    App.SetNicknames.forMember a env ⟨g, j⟩ guild member
      = [.getUser (ParseUint member.User.ID).1] ∧
    App.SetNicknames.setNicksForGuild a env g guild (member :: rest) j
      = .getUser (ParseUint member.User.ID).1
        :: App.SetNicknames.setNicksForGuild a env g guild rest (j + 1) := by
  have hbody : App.SetNicknames.forMember a env ⟨g, j⟩ guild member
      = [.getUser (ParseUint member.User.ID).1] := by
    rw [App.SetNicknames.forMember_lookup_error a env ⟨g, j⟩ guild member err hget, if_pos hno]
  exact ⟨hbody, by rw [App.SetNicknames.setNicksForGuild, hbody]; rfl⟩

/-- Witness of C9: member 2 of the sample guild has no linked account. -/
theorem App.SetNicknames.no_linked_account_witness :
    App.SetNicknames.forMember sampleApp sampleCollaborators ⟨0, 0⟩ sampleGuild
        ⟨⟨"2"⟩, "two"⟩
      = [.getUser 2] :=
  (App.SetNicknames.no_linked_account sampleApp sampleCollaborators 0 0 sampleGuild
    ⟨⟨"2"⟩, "two"⟩ [] .noRows rfl rfl).1

/-- C10: for every snapshot of guilds and whatever the collaborators answer, `SetNicknames`
returns no error, and the goroutine of each guild starts the handling of every member of
the guild (the account lookup) exactly once, in the member order of the snapshot. -/
theorem App.SetNicknames.every_member_started (a : App) (env : Collaborators)
    (guilds : List Guild) :
    (App.SetNicknames a env guilds).2 = none ∧
    (App.SetNicknames a env guilds).1.map (fun tr => tr.filterMap Event.startedMember)
      = guilds.map (fun guild => guild.Members.map (fun m => (ParseUint m.User.ID).1)) :=
  ⟨rfl, App.SetNicknames.goroutines_started a env guilds 0⟩

/-- Two databases with the same rows and the same connection state are the same. -/
theorem DB.eq_of_fields (x y : DB) (hg : x.guilds = y.guilds) (hf : x.failing = y.failing) :
    x = y := by
  cases x; cases y; simp only [DB.mk.injEq]; exact ⟨hg, hf⟩

/-- On a working connection `DeleteRemovedGuilds` returns no error, keeps exactly the rows
whose id is the id of a guild of the snapshot, and leaves the connection working. -/
theorem App.DeleteRemovedGuilds_keeps (guilds : List Guild) (db : DB)
    (hok : db.failing = none) :
    (App.DeleteRemovedGuilds guilds db).1 = none ∧
    (App.DeleteRemovedGuilds guilds db).2.guilds = db.guilds.filter
      (fun g => decide (g.ID ∈ guilds.map (fun guild => (ParseUint guild.ID).1))) ∧
    (App.DeleteRemovedGuilds guilds db).2.failing = none := by
  unfold App.DeleteRemovedGuilds SyncGuilds DB.ExecContext deleteNotEq
  simp only [hok]
  by_cases hnil : guilds.map (fun guild => (ParseUint guild.ID).1) = []
  · simp [hnil, hok]
  · simp [hnil, hok]

/-- C11: for snapshots S1 ⊇ S2 of connected guild ids and every content of the store, on a
working connection, `DeleteRemovedGuilds` with S1 and then with S2 leaves of the stored rows
exactly those whose id is in S2, and a further run with S2 changes nothing; no run returns
an error. -/
theorem App.DeleteRemovedGuilds_monotone (S1 S2 : List Guild) (db : DB)
    (hsub : ∀ id ∈ S2.map (fun guild => (ParseUint guild.ID).1),
      id ∈ S1.map (fun guild => (ParseUint guild.ID).1))
    (hok : db.failing = none) :
    (App.DeleteRemovedGuilds S1 db).1 = none ∧
    (App.DeleteRemovedGuilds S2 (App.DeleteRemovedGuilds S1 db).2).1 = none ∧
    (App.DeleteRemovedGuilds S2 (App.DeleteRemovedGuilds S1 db).2).2.guilds
      = db.guilds.filter
          (fun g => decide (g.ID ∈ S2.map (fun guild => (ParseUint guild.ID).1))) ∧
    App.DeleteRemovedGuilds S2 (App.DeleteRemovedGuilds S2 (App.DeleteRemovedGuilds S1 db).2).2
      = (none, (App.DeleteRemovedGuilds S2 (App.DeleteRemovedGuilds S1 db).2).2) := by
  obtain ⟨e1, g1, f1⟩ := App.DeleteRemovedGuilds_keeps S1 db hok
  obtain ⟨e2, g2, f2⟩ := App.DeleteRemovedGuilds_keeps S2 (App.DeleteRemovedGuilds S1 db).2 f1
  obtain ⟨e3, g3, f3⟩ := App.DeleteRemovedGuilds_keeps S2
    (App.DeleteRemovedGuilds S2 (App.DeleteRemovedGuilds S1 db).2).2 f2
  have hfilter : (App.DeleteRemovedGuilds S2 (App.DeleteRemovedGuilds S1 db).2).2.guilds
      = db.guilds.filter
          (fun g => decide (g.ID ∈ S2.map (fun guild => (ParseUint guild.ID).1))) := by
    rw [g2, g1, List.filter_filter]
    apply List.filter_congr
    intro g _
    by_cases hg : g.ID ∈ S2.map (fun guild => (ParseUint guild.ID).1)
    · simp only [hg, hsub g.ID hg, decide_True, Bool.and_self]
    · simp only [hg, decide_False, Bool.false_and]
  refine ⟨e1, e2, hfilter, Prod.ext e3 (DB.eq_of_fields _ _ ?_ (f3.trans f2.symm))⟩
  rw [g3, hfilter, List.filter_filter]
  apply List.filter_congr
  intro g _
  simp

/-- Witness of C11: the store holds the guilds 1, 2, 3, 4; the bot is first connected to 1, 2,
3 and then to 1, 3. -/
theorem App.DeleteRemovedGuilds_monotone_witness :
    (App.DeleteRemovedGuilds [sampleConnected "1", sampleConnected "3"]
        (App.DeleteRemovedGuilds
          [sampleConnected "1", sampleConnected "2", sampleConnected "3"]
          (sampleDB [1, 2, 3, 4])).2).2.guilds
      = (sampleDB [1, 3]).guilds :=
  (App.DeleteRemovedGuilds_monotone
    [sampleConnected "1", sampleConnected "2", sampleConnected "3"]
    [sampleConnected "1", sampleConnected "3"] (sampleDB [1, 2, 3, 4])
    (by decide) rfl).2.2.1

/-- The log of a run of the loop begins with the calls of its first tick, and what follows
does not begin with a call: it is empty or begins with the `select`. -/
theorem App.scheduleEvery.loop_log {σ : Type} (a : App) (fns : List (Job σ))
    (wakeups : List Wakeup) (state : σ) (stdout : List String) :
    ∃ rest, (App.scheduleEvery.loop a fns wakeups state stdout).log
        = callEvents (App.scheduleEvery.tick a fns
            { state := state, stdout := stdout, invoked := [] }).invoked ++ rest ∧
      (rest = [] ∨ ∃ w tail, rest = .select w :: tail) := by
  cases wakeups with
  | nil => exact ⟨[], by simp [App.scheduleEvery.loop], Or.inl rfl⟩
  | cons w rest =>
    by_cases hw : w.takesTick = true
    · refine ⟨.select w :: (App.scheduleEvery.loop a fns rest
          (App.scheduleEvery.tick a fns
            { state := state, stdout := stdout, invoked := [] }).state
          (App.scheduleEvery.tick a fns
            { state := state, stdout := stdout, invoked := [] }).stdout).log, ?_,
        Or.inr ⟨w, _, rfl⟩⟩
      simp [App.scheduleEvery.loop, hw]
    · exact ⟨[.select w], by simp [App.scheduleEvery.loop, hw], Or.inr ⟨w, [], rfl⟩⟩

/-- C14, as the claim states it, fails: when the first function returns `context.Canceled`
the second one is not called before the `select` (the events of the first tick are the one
call and the `select`), and for the interval 0 `time.NewTicker` panics before any call. -/
theorem App.scheduleEvery_first_tick_counterexample :
    (App.scheduleEvery sampleApp Minute sampleJobs [.done] 0).map (fun r => r.log)
      = some [.call 0 ⟨"app"⟩ (some .canceled), .select .done] ∧
    (App.scheduleEvery sampleApp 0 sampleJobs [.done] 0).map (fun r => r.log) = none := by
  constructor
  · decide
  · decide

/-- C14, amended: for every positive interval and every list of functions the first tick
fires immediately: before `scheduleEvery` waits in its `select` for the first time it calls
the functions in list order, each with the shared context of the app and on the state the
one before left, up to and including the first that returns an error that is or wraps
`context.Canceled`, and all of them when none does. -/
theorem App.scheduleEvery_first_tick {σ : Type} (a : App) (d : Int) (fns : List (Job σ))
    (wakeups : List Wakeup) (state : σ) (hd : 0 < d) :
    ∃ (r : SchedRun σ) (tr : List (Option GoError)) (sts : List σ) (rest : List SchedEvent),
      App.scheduleEvery a d fns wakeups state = some r ∧
      r.log = (tr.enumFrom 0).map (fun ie => .call ie.1 a.ctx ie.2) ++ rest ∧
      (rest = [] ∨ ∃ w tail, rest = .select w :: tail) ∧
      tr.length ≤ fns.length ∧
      sts.length = tr.length + 1 ∧
      sts.head? = some state ∧
      (∀ j fn st st' e, fns[j]? = some fn → sts[j]? = some st → sts[j + 1]? = some st' →
        tr[j]? = some e → fn a.ctx st = (e, st')) ∧
      (∀ j e, j + 1 < tr.length → tr[j]? = some (some e) → e.Is .canceled = false) ∧
      (tr.length < fns.length →
        ∃ e, tr.getLast? = some (some e) ∧ e.Is .canceled = true) := by
  obtain ⟨tr, sts, h1, h2, h3, h4, _, h6, h7, h8⟩ := App.scheduleEvery.runJobs_spec a fns 0
    { state := state, stdout := [], invoked := [] }
  obtain ⟨rest, hlog, hrest⟩ := App.scheduleEvery.loop_log a fns wakeups state []
  refine ⟨App.scheduleEvery.loop a fns wakeups state [], tr, sts, rest, ?_, ?_, hrest, h2, h3,
    h4, h6, h7, h8⟩
  · rw [App.scheduleEvery, if_neg (by omega)]
  · rw [hlog, App.scheduleEvery.tick, h1]
    simp [callEvents]

/-- Witness of C14, amended: with the interval of a minute the first tick of the sample jobs
is the call that returns the cancelled error, then the `select`. -/
theorem App.scheduleEvery_first_tick_witness :
    ∃ (r : SchedRun Nat) (tr : List (Option GoError)) (rest : List SchedEvent),
      App.scheduleEvery sampleApp Minute sampleJobs [.done] 0 = some r ∧
      r.log = (tr.enumFrom 0).map (fun ie => .call ie.1 sampleApp.ctx ie.2) ++ rest ∧
      tr.length ≤ sampleJobs.length := by
  obtain ⟨r, tr, _, rest, h1, h2, _, h4, _⟩ :=
    App.scheduleEvery_first_tick sampleApp Minute sampleJobs [.done] 0 (by decide)
  exact ⟨r, tr, rest, h1, h2, h4⟩

/-- C17, as the claim states it, fails: with the cancellation signal raised and a tick
pending when the first tick's functions finish, the `select` may take the tick, and
`scheduleEvery` then starts another tick (the function at index 0 is called a second time)
before it returns. -/
theorem App.scheduleEvery_cancel_counterexample :
    (App.scheduleEvery sampleApp Minute sampleJobs [.both true, .done] 0).map (fun r => r.log)
      = some [.call 0 ⟨"app"⟩ (some .canceled), .select (.both true),
          .call 0 ⟨"app"⟩ (some .canceled), .select .done] := by
  decide

/-- The loop of `scheduleEvery` through wake-ups that all take the tick and then one that
takes the cancellation case: the loop returns at that `select`, which is its last event,
and the wake-ups after it play no part. -/
theorem App.scheduleEvery.loop_cancel {σ : Type} (a : App) (fns : List (Job σ)) (w : Wakeup)
    (later : List Wakeup) (htake : w.takesTick = false) :
    ∀ (earlier : List Wakeup) (state : σ) (stdout : List String),
      (∀ x ∈ earlier, x.takesTick = true) →
      App.scheduleEvery.loop a fns (earlier ++ w :: later) state stdout
        = App.scheduleEvery.loop a fns (earlier ++ [w]) state stdout ∧
      (App.scheduleEvery.loop a fns (earlier ++ [w]) state stdout).returned = true ∧
      (App.scheduleEvery.loop a fns (earlier ++ [w]) state stdout).log.getLast?
        = some (.select w) := by
  intro earlier
  induction earlier with
  | nil =>
    intro state stdout _
    simp [App.scheduleEvery.loop, htake]
  | cons x rest ih =>
    intro state stdout hx
    have hxt : x.takesTick = true := hx x (List.mem_cons_self _ _)
    obtain ⟨h1, h2, h3⟩ := ih
      (App.scheduleEvery.tick a fns { state := state, stdout := stdout, invoked := [] }).state
      (App.scheduleEvery.tick a fns { state := state, stdout := stdout, invoked := [] }).stdout
      (fun y hy => hx y (List.mem_cons_of_mem _ hy))
    refine ⟨?_, ?_, ?_⟩
    · simp only [List.cons_append, App.scheduleEvery.loop, hxt, if_true, List.append_eq, h1]
    · simp only [List.cons_append, App.scheduleEvery.loop, hxt, if_true, List.append_eq, h2]
    · simp only [List.cons_append, App.scheduleEvery.loop, hxt, if_true, List.append_eq]
      rw [List.getLast?_append, h3]
      rfl

/-- The loop of `scheduleEvery` through wake-ups that all take the tick: after one tick per
wake-up the loop goes on, from the state and the output those ticks left, as it does against
the wake-ups that remain, and its log is the events of those ticks followed by the log of
that continuation. -/
theorem App.scheduleEvery.loop_through {σ : Type} (a : App) (fns : List (Job σ))
    (rest : List Wakeup) :
    ∀ (earlier : List Wakeup) (state : σ) (stdout : List String),
      (∀ x ∈ earlier, x.takesTick = true) →
      ∃ (st : σ) (out : List String) (pre : List SchedEvent),
        (App.scheduleEvery.loop a fns (earlier ++ rest) state stdout).log
          = pre ++ (App.scheduleEvery.loop a fns rest st out).log ∧
        (App.scheduleEvery.loop a fns (earlier ++ rest) state stdout).returned
          = (App.scheduleEvery.loop a fns rest st out).returned ∧
        (App.scheduleEvery.loop a fns (earlier ++ rest) state stdout).state
          = (App.scheduleEvery.loop a fns rest st out).state ∧
        (App.scheduleEvery.loop a fns (earlier ++ rest) state stdout).stdout
          = (App.scheduleEvery.loop a fns rest st out).stdout := by
  intro earlier
  induction earlier with
  | nil =>
    intro state stdout _
    exact ⟨state, stdout, [], by simp, rfl, rfl, rfl⟩
  | cons x more ih =>
    intro state stdout hx
    have hxt : x.takesTick = true := hx x (List.mem_cons_self _ _)
    obtain ⟨st, out, pre, h1, h2, h3, h4⟩ := ih
      (App.scheduleEvery.tick a fns { state := state, stdout := stdout, invoked := [] }).state
      (App.scheduleEvery.tick a fns { state := state, stdout := stdout, invoked := [] }).stdout
      (fun y hy => hx y (List.mem_cons_of_mem _ hy))
    refine ⟨st, out,
      callEvents (App.scheduleEvery.tick a fns
        { state := state, stdout := stdout, invoked := [] }).invoked ++ [.select x] ++ pre,
      ?_, ?_, ?_, ?_⟩
    · simp only [List.cons_append, App.scheduleEvery.loop, hxt, if_true, List.append_eq, h1,
        List.append_assoc]
    · simp only [List.cons_append, App.scheduleEvery.loop, hxt, if_true, List.append_eq, h2]
    · simp only [List.cons_append, App.scheduleEvery.loop, hxt, if_true, List.append_eq, h3]
    · simp only [List.cons_append, App.scheduleEvery.loop, hxt, if_true, List.append_eq, h4]

/-- C17, amended: let the cancellation signal be raised when the functions of a tick finish
(the tick after the wake-ups `earlier`, also one cut short by a cancelled error). When no
tick is pending, and when a tick is pending and the `select` takes the cancellation case,
`scheduleEvery` returns at once without another tick: the run has returned, that `select` is
its last event and the wake-ups that would follow play no part. When a tick is pending and
the `select` takes the tick, `scheduleEvery` does not return there: after that `select` it
goes on with one more tick, as the loop does from the state `st` the ticks so far left
(first the calls of that tick, then its `select` or the wait for it), and it has returned
only if that continuation has. -/
theorem App.scheduleEvery_cancel {σ : Type} (a : App) (d : Int) (fns : List (Job σ))
    (earlier : List Wakeup) (later : List Wakeup) (state : σ) (hd : 0 < d)
    (hearlier : ∀ x ∈ earlier, x.takesTick = true) :
    (∀ w, w = .done ∨ w = .both false →
      ∃ r, App.scheduleEvery a d fns (earlier ++ w :: later) state = some r ∧
        App.scheduleEvery a d fns (earlier ++ [w]) state = some r ∧
        r.returned = true ∧
        r.log.getLast? = some (.select w)) ∧
    (∃ (r : SchedRun σ) (st : σ) (out : List String) (pre tail : List SchedEvent),
      App.scheduleEvery a d fns (earlier ++ .both true :: later) state = some r ∧
      r.log = pre ++ .select (.both true) :: (App.scheduleEvery.loop a fns later st out).log ∧
      (App.scheduleEvery.loop a fns later st out).log
        = callEvents (App.scheduleEvery.tick a fns
            { state := st, stdout := out, invoked := [] }).invoked ++ tail ∧
      (tail = [] ∨ ∃ w' tail', tail = .select w' :: tail') ∧
      r.returned = (App.scheduleEvery.loop a fns later st out).returned ∧
      r.state = (App.scheduleEvery.loop a fns later st out).state ∧
      r.stdout = (App.scheduleEvery.loop a fns later st out).stdout) := by
  constructor
  · intro w hw
    have htake : w.takesTick = false := by
      rcases hw with rfl | rfl <;> rfl
    obtain ⟨h1, h2, h3⟩ := App.scheduleEvery.loop_cancel a fns w later htake earlier state []
      hearlier
    refine ⟨App.scheduleEvery.loop a fns (earlier ++ [w]) state [], ?_, ?_, h2, h3⟩
    · rw [App.scheduleEvery, if_neg (by omega), h1]
    · rw [App.scheduleEvery, if_neg (by omega)]
  · obtain ⟨st, out, pre, h1, h2, h3, h4⟩ := App.scheduleEvery.loop_through a fns
      (.both true :: later) earlier state [] hearlier
    obtain ⟨tail, htail, hshape⟩ := App.scheduleEvery.loop_log a fns later
      (App.scheduleEvery.tick a fns { state := st, stdout := out, invoked := [] }).state
      (App.scheduleEvery.tick a fns { state := st, stdout := out, invoked := [] }).stdout
    refine ⟨App.scheduleEvery.loop a fns (earlier ++ .both true :: later) state [],
      (App.scheduleEvery.tick a fns { state := st, stdout := out, invoked := [] }).state,
      (App.scheduleEvery.tick a fns { state := st, stdout := out, invoked := [] }).stdout,
      pre ++ callEvents (App.scheduleEvery.tick a fns
        { state := st, stdout := out, invoked := [] }).invoked,
      tail, ?_, ?_, htail, hshape, ?_, ?_, ?_⟩
    · rw [App.scheduleEvery, if_neg (by omega)]
    · rw [h1]
      simp [App.scheduleEvery.loop, Wakeup.takesTick]
    · rw [h2]
      simp [App.scheduleEvery.loop, Wakeup.takesTick]
    · rw [h3]
      simp [App.scheduleEvery.loop, Wakeup.takesTick]
    · rw [h4]
      simp [App.scheduleEvery.loop, Wakeup.takesTick]

/-- Witness of C17, amended: after one full tick the signal is raised with no tick
pending. -/
theorem App.scheduleEvery_cancel_witness :
    ∃ r, App.scheduleEvery sampleApp Minute sampleJobs ([.tick] ++ .done :: [.tick]) 0
        = some r ∧
      App.scheduleEvery sampleApp Minute sampleJobs ([.tick] ++ [.done]) 0 = some r ∧
      r.returned = true ∧
      r.log.getLast? = some (.select .done) :=
  (App.scheduleEvery_cancel sampleApp Minute sampleJobs [.tick] [.tick] 0 (by decide)
    (by decide)).1 .done (Or.inl rfl)

end app
